import Mathlib

/-!
Verification of the RAG (retrieval-augmented generation) core of the
Research-AI-Summarizer repository, a shallow embedding of
`backend/utils/rag_processor.py`.

Python strings are modelled as `List Char` (`PyStr`); Python dicts used as
stores are modelled as association lists in insertion order, which matches
CPython dict iteration order.  External services (OpenAI embeddings, the
four chat providers, Supabase) are modelled as an `Oracle` of pure functions
returning `Except`, where `Except.error msg` stands for a raised exception
whose `str()` is `msg`.
-/

/-- Python `str` modelled as a list of characters. -/
abbrev PyStr := List Char

/-- A conversation message `{"role": r, "content": c}`. -/
abbrev Msg := PyStr × PyStr

/-- Auxiliary for `pySplit`: accumulates the current word (reversed). -/
def pySplitAux : List Char → List Char → List PyStr
  | [], acc => if acc = [] then [] else [acc.reverse]
  | c :: cs, acc =>
    if c.isWhitespace then
      if acc = [] then pySplitAux cs [] else acc.reverse :: pySplitAux cs []
    else pySplitAux cs (c :: acc)

/-- Python `text.split()`: split on runs of whitespace, dropping empties. -/
def pySplit (s : PyStr) : List PyStr := pySplitAux s []

/-- Python `" ".join(words)`. -/
def joinWords (ws : List PyStr) : PyStr := List.intercalate [' '] ws

/-- Python slice `words[i:i+size]`.  In every execution reached by the code
the start index `i` is non-negative, where this agrees with Python slicing;
the divergence results below do not depend on the slice's value. -/
def pyWindow (ws : List PyStr) (i : Int) (size : Nat) : List PyStr :=
  (ws.drop i.toNat).take size

/-- Fuel-indexed embedding of the `while i < len(words)` loop of
`RAGProcessor._chunk_document`.  `none` means the fuel ran out, i.e. the
Python loop performs at least `fuel` iterations; `∀ fuel, … = none` states
that the loop never terminates. -/
def chunkLoopF : Nat → List PyStr → Nat → Int → Int → Option (List PyStr)
  | 0, _, _, _, _ => none
  | fuel + 1, ws, size, step, i =>
    if i < (ws.length : Int) then
      match chunkLoopF fuel ws size step (i + step) with
      | none => none
      | some rest => some (joinWords (pyWindow ws i size) :: rest)
    else some []

/-- Embedding of `RAGProcessor._chunk_document(text, chunk_size, chunk_overlap)`.
When the word count is `≤ chunk_size` the original `text` itself is the one
chunk.  Otherwise the loop runs with `i += chunk_size - chunk_overlap`
(Python int arithmetic, hence `Int`).  A positive step performs at most
`len(words)` iterations, so fuel `len(words) + 1` is exact for every
terminating run; `none` is returned exactly when the loop diverges. -/
def chunkDocument (text : PyStr) (size overlap : Nat) : Option (List PyStr) :=
  let words := pySplit text
  if words.length ≤ size then some [text]
  else chunkLoopF (words.length + 1) words size ((size : Int) - (overlap : Int)) 0

/-- Observer used to state the chunking claim: the window start offsets
`i, i+step, i+2·step, …` below the word count (`step = s1 + 1`). -/
def windowStarts (len s1 : Nat) (i : Nat) : List Nat :=
  if i < len then i :: windowStarts len s1 (i + s1 + 1) else []
termination_by len - i
decreasing_by omega

/-- The decimal digit characters used by Python `str(i)`. -/
def digitChar (d : Nat) : Char := Char.ofNat (48 + d)

/-- Little-endian decimal digits of `n`, with enough fuel (`n` itself
suffices, since `n / 10 < n` for positive `n`). -/
def natToCharsAux : Nat → Nat → List Char
  | 0, _ => []
  | _ + 1, 0 => []
  | fuel + 1, n + 1 => digitChar ((n + 1) % 10) :: natToCharsAux fuel ((n + 1) / 10)

/-- Python `str(n)` for a natural number. -/
def natToChars (n : Nat) : List Char :=
  if n = 0 then ['0'] else (natToCharsAux n n).reverse

/-- Inverse of `natToChars`, used to prove it injective. -/
def charsToNat (cs : List Char) : Nat :=
  Nat.ofDigits 10 ((cs.map (fun c => c.toNat - 48)).reverse)

/-- Chunk identity `f"{document_id}_chunk_{i}"`. -/
def chunkIdOf (docId : PyStr) (i : Nat) : PyStr :=
  docId ++ "_chunk_".toList ++ natToChars i

/-- A stored chunk record
`{"document_id": …, "chunk_text": …, "chunk_index": …}`. -/
structure ChunkRec where
  document_id : PyStr
  chunk_text : PyStr
  chunk_index : Nat
deriving DecidableEq, Repr

/-- A retrieval result: a copy of the chunk record with `"id"` added. -/
structure RetrievedChunk where
  document_id : PyStr
  chunk_text : PyStr
  chunk_index : Nat
  id : PyStr
deriving DecidableEq, Repr

/-- The in-memory stores `self.document_chunks` / `self.document_embeddings`,
as association lists in dict insertion order. -/
structure Store where
  document_chunks : List (PyStr × ChunkRec)
  document_embeddings : List (PyStr × List ℝ)

/-- The module-level availability state: each provider's library import flag
and credential, plus the Supabase client.  `hasGenai` (resp. `hasAnthropic`,
`hasMistral`) is already `false` when the import-time liveness probe failed,
exactly as the module sets the `HAS_*` globals. -/
structure Env where
  hasOpenai : Bool
  openaiKey : Bool
  hasGenai : Bool
  geminiKey : Bool
  hasAnthropic : Bool
  anthropicKey : Bool
  hasMistral : Bool
  mistralKey : Bool
  hasSupabase : Bool

/-- External calls.  `Except.error msg` models a raised exception with
`str(e) = msg`.  `genMistral`'s error is the first client error, after the
source's alternative-model retries have also failed. -/
structure Oracle where
  embed : PyStr → Except PyStr (List ℝ)
  matchChunks : List ℝ → PyStr → Nat → Except PyStr (List RetrievedChunk)
  storeChunk : PyStr → PyStr → PyStr → List ℝ → Except PyStr Unit
  genGemini : PyStr → PyStr → List Msg → Except PyStr PyStr
  genOpenai : PyStr → PyStr → List Msg → Except PyStr PyStr
  genClaude : PyStr → PyStr → List Msg → Except PyStr PyStr
  genMistral : PyStr → PyStr → List Msg → Except PyStr PyStr

/-- Association-list lookup on string keys (Python dict read). -/
def alookup {β : Type} : List (PyStr × β) → PyStr → Option β
  | [], _ => none
  | p :: ps, k => if p.1 = k then some p.2 else alookup ps k

/-- Python dict write `d[k] = v`: replace in place if the key is present
(keys are unique in a dict), otherwise append in insertion order. -/
def upsert {β : Type} (l : List (PyStr × β)) (k : PyStr) (v : β) :
    List (PyStr × β) :=
  if l.any (fun p => p.1 == k) then
    l.map (fun p => if p.1 = k then (k, v) else p)
  else l ++ [(k, v)]

/-- Dict keys are unique. -/
abbrev keysNodup {β : Type} (l : List (PyStr × β)) : Prop :=
  (l.map Prod.fst).Nodup

/-- Model of `np.dot` on equal-length float vectors, over exact reals. -/
def dotList (v w : List ℝ) : ℝ := (List.zipWith (· * ·) v w).sum

/-- Embedding of `RAGProcessor._cosine_similarity`: `dot/(‖v1‖·‖v2‖)`, `0` when either
norm (`np.linalg.norm`, i.e. the square root of the sum of squares) is 0. -/
noncomputable def cosineSimilarity (v1 v2 : List ℝ) : ℝ :=
  let norm1 := Real.sqrt (dotList v1 v1)
  let norm2 := Real.sqrt (dotList v2 v2)
  if norm1 = 0 ∨ norm2 = 0 then 0 else dotList v1 v2 / (norm1 * norm2)

/-- Python `w in t` for strings: contiguous-substring test. -/
def isSubstringOf (w t : PyStr) : Bool :=
  (List.range (t.length + 1)).any (fun i => w.isPrefixOf (t.drop i))

/-- Keyword-mode score of one chunk:
`sum(1 for word in set(query.lower().split()) if word in chunk_text.lower())`.
Summing over the Python set counts each distinct query word once, in any
order, so it is the number of deduplicated lowered query words occurring as
substrings of the lowered chunk text. -/
def keywordScoreOf (query chunk_text : PyStr) : Nat :=
  (((pySplit (query.map Char.toLower)).dedup).filter
    (fun w => isSubstringOf w (chunk_text.map Char.toLower))).length

/-- Stable insertion (descending by the second component): an element is
placed before the first strictly smaller key, after equal keys.  This is the
ordering produced by Python's stable `list.sort(key=lambda x: x[1],
reverse=True)`. -/
def insertDescBySnd {α : Type} {β : Type} [LinearOrder β] (x : α × β) :
    List (α × β) → List (α × β)
  | [] => [x]
  | y :: ys => if y.2 ≤ x.2 then x :: y :: ys else y :: insertDescBySnd x ys

/-- Stable sort, descending by the second component (Python
`sort(key=…, reverse=True)`). -/
def sortDescBySnd {α : Type} {β : Type} [LinearOrder β] (l : List (α × β)) :
    List (α × β) :=
  l.foldr insertDescBySnd []

/-- Build a `RetrievedChunk` from `chunk_data = …copy(); chunk_data["id"] = cid`. -/
def mkRetrieved (cid : PyStr) (c : ChunkRec) : RetrievedChunk :=
  { document_id := c.document_id, chunk_text := c.chunk_text,
    chunk_index := c.chunk_index, id := cid }

/-- Embedding of `RAGProcessor._generate_embedding_openai`. -/
def generateEmbeddingOpenai (env : Env) (oracle : Oracle) (text : PyStr) :
    Except PyStr (List ℝ) :=
  if !(env.hasOpenai && env.openaiKey) then
    .error "OpenAI API key not available for embeddings".toList
  else oracle.embed text

/-- The in-memory vector search of `RAGProcessor._retrieve_relevant_chunks`:
filter the document's chunks, score those with stored embeddings by cosine
similarity against the query embedding, sort descending (stable), take
`top_k`, and copy the records with `"id"` added.  The final dict index
`self.document_chunks[chunk_id]` always succeeds, modelled by the lookup. -/
noncomputable def inMemoryVectorSearch (store : Store) (qe : List ℝ)
    (documentId : PyStr) (top_k : Nat) : List RetrievedChunk :=
  let docChunks := store.document_chunks.filter
    (fun p => p.2.document_id == documentId)
  if docChunks.isEmpty then []
  else
    let similarities := store.document_chunks.filterMap (fun p =>
      if p.2.document_id = documentId then
        (alookup store.document_embeddings p.1).map
          (fun e => (p.1, cosineSimilarity qe e))
      else none)
    let sorted := sortDescBySnd similarities
    let topChunkIds := (sorted.take top_k).map Prod.fst
    topChunkIds.filterMap (fun cid =>
      (alookup store.document_chunks cid).map (mkRetrieved cid))

/-- The keyword fallback search of `RAGProcessor._retrieve_relevant_chunks`. -/
def keywordSearch (store : Store) (query : PyStr) (documentId : PyStr)
    (top_k : Nat) : List RetrievedChunk :=
  let docChunks := store.document_chunks.filter
    (fun p => p.2.document_id == documentId)
  if docChunks.isEmpty then []
  else
    let chunkScores := store.document_chunks.filterMap (fun p =>
      if p.2.document_id = documentId then
        some (p.1, keywordScoreOf query p.2.chunk_text)
      else none)
    let sorted := sortDescBySnd chunkScores
    let topChunkIds := (sorted.take top_k).map Prod.fst
    topChunkIds.filterMap (fun cid =>
      (alookup store.document_chunks cid).map (mkRetrieved cid))

/-- Embedding of `RAGProcessor._retrieve_relevant_chunks`.  With OpenAI available the
query is embedded (a raised exception propagates); with Supabase also
available the RPC result is returned, falling through to the in-memory
search only if the RPC raises. -/
noncomputable def retrieveRelevantChunks (env : Env) (oracle : Oracle)
    (store : Store) (query : PyStr) (documentId : PyStr) (top_k : Nat) :
    Except PyStr (List RetrievedChunk) := do
  if env.hasOpenai && env.openaiKey then
    let queryEmbedding ← generateEmbeddingOpenai env oracle query
    if env.hasSupabase then
      match oracle.matchChunks queryEmbedding documentId top_k with
      | .ok data => if data.isEmpty then pure [] else pure data
      | .error _ => pure (inMemoryVectorSearch store queryEmbedding documentId top_k)
    else
      pure (inMemoryVectorSearch store queryEmbedding documentId top_k)
  else
    pure (keywordSearch store query documentId top_k)

/-- Embedding of `RAGProcessor._generate_answer_gemini`: availability guard, then the
external interaction; the surrounding `except` wraps any failure once. -/
def generateAnswerGemini (env : Env) (oracle : Oracle) (q ctx : PyStr)
    (hist : List Msg) : Except PyStr PyStr :=
  if !(env.hasGenai && env.geminiKey) then
    .error "Gemini API key not available".toList
  else
    match oracle.genGemini q ctx hist with
    | .ok a => .ok a
    | .error e => .error ("Failed to generate response with Gemini: ".toList ++ e)

/-- Embedding of `RAGProcessor._generate_answer_openai`: availability guard; a failing
call propagates unwrapped (the source has no try/except here). -/
def generateAnswerOpenai (env : Env) (oracle : Oracle) (q ctx : PyStr)
    (hist : List Msg) : Except PyStr PyStr :=
  if !(env.hasOpenai && env.openaiKey) then
    .error "OpenAI API key not available".toList
  else oracle.genOpenai q ctx hist

/-- Embedding of `RAGProcessor._generate_answer_claude`: the inner client handler wraps
the client error, and the outer `except` wraps that again, so the message
carries the prefix twice, exactly as the source nests its two handlers. -/
def generateAnswerClaude (env : Env) (oracle : Oracle) (q ctx : PyStr)
    (hist : List Msg) : Except PyStr PyStr :=
  if !(env.hasAnthropic && env.anthropicKey) then
    .error "Claude API key not available".toList
  else
    match oracle.genClaude q ctx hist with
    | .ok a => .ok a
    | .error e =>
      .error ("Failed to generate response with Claude: ".toList ++
        ("Failed to generate response with Claude: ".toList ++ e))

/-- Embedding of `RAGProcessor._generate_answer_mistral`: after the alternative-model
retries fail, the inner handler raises with the original client error and
the outer `except` wraps it again. -/
def generateAnswerMistral (env : Env) (oracle : Oracle) (q ctx : PyStr)
    (hist : List Msg) : Except PyStr PyStr :=
  if !(env.hasMistral && env.mistralKey) then
    .error "Mistral API key not available".toList
  else
    match oracle.genMistral q ctx hist with
    | .ok a => .ok a
    | .error e =>
      .error ("Failed to generate response with Mistral: ".toList ++
        ("Failed to generate response with any Mistral model: ".toList ++ e))

/-- The `model_availability` dict of `answer_question`; `"mistral"` is
hard-coded `False` ("Mistral library not properly installed"). -/
def modelAvailability (env : Env) (m : PyStr) : Option Bool :=
  if m = "gemini".toList then some (env.hasGenai && env.geminiKey)
  else if m = "openai".toList then some (env.hasOpenai && env.openaiKey)
  else if m = "claude".toList then some (env.hasAnthropic && env.anthropicKey)
  else if m = "mistral".toList then some false
  else none

/-- The fixed fallback priority order. -/
def fallbackOrder : List PyStr :=
  ["gemini".toList, "openai".toList, "claude".toList, "mistral".toList]

/-- The `available_models` list of `answer_question`: the requested model
first when the dict has it `True`, then the remaining fallback-order
providers that are marked available. -/
def buildAvailableModels (env : Env) (model : PyStr) : List PyStr :=
  (if (modelAvailability env model).getD false then [model] else []) ++
    fallbackOrder.filter
      (fun fm => !(fm == model) && (modelAvailability env fm).getD false)

/-- The `if current_model == "gemini" … elif …` chain of the fallback loop;
`none` when the string matches no provider (the loop body then does
nothing and the loop advances). -/
def genDispatch (env : Env) (oracle : Oracle) (q ctx : PyStr)
    (hist : List Msg) (cur : PyStr) : Option (Except PyStr PyStr) :=
  if cur = "gemini".toList then some (generateAnswerGemini env oracle q ctx hist)
  else if cur = "openai".toList then some (generateAnswerOpenai env oracle q ctx hist)
  else if cur = "claude".toList then some (generateAnswerClaude env oracle q ctx hist)
  else if cur = "mistral".toList then some (generateAnswerMistral env oracle q ctx hist)
  else none

/-- Python `str(last_error)` when the loop ends: `str(None) = "None"`. -/
def strOfLastError : Option PyStr → PyStr
  | none => "None".toList
  | some e => e

/-- The result dict of `answer_question`, one constructor per return shape:
the context-ready success (`status: success`), the fallback-sample success
(no `status` key; `fallback: True` and empty `source_chunks` are recorded
literally), and the error dicts (`status: "error"`, `error: msg`). -/
inductive AQResult where
  | success (answer : PyStr) (modelUsed : PyStr) (sourceChunks : List RetrievedChunk)
  | fallbackSuccess (answer : PyStr) (sourceChunks : List RetrievedChunk)
      (fallback : Bool) (message : PyStr) (modelUsed : PyStr)
  | error (msg : PyStr)
deriving DecidableEq, Repr

/-- The `for current_model in available_models` loop: a matched provider is
invoked; success returns immediately with `model_used = current_model`; a
raised error is recorded as `last_error` and the loop advances; when the
loop exhausts, the aggregate error dict is returned. -/
def tryModels (gen : PyStr → Option (Except PyStr PyStr))
    (relevantChunks : List RetrievedChunk) :
    List PyStr → Option PyStr → AQResult
  | [], lastError =>
    .error ("Error generating answer with all available models. Last error: ".toList
      ++ strOfLastError lastError)
  | cur :: rest, lastError =>
    match gen cur with
    | none => tryModels gen relevantChunks rest lastError
    | some (.ok answer) => .success answer cur relevantChunks
    | some (.error e) => tryModels gen relevantChunks rest (some e)

/-- The document lookup of the fallback branch:
`for doc_id, chunks in self.document_chunks.items(): if doc_id == document_id
and chunks: document_text = chunks[0]["chunk_text"]`.  The keys are chunk
ids, and `chunks` is the per-chunk record dict (always truthy); when a key
does equal `document_id`, `chunks[0]` raises `KeyError(0)` (`str` `"0"`)
because the record's keys are strings.  Otherwise `document_text` stays
`""`. -/
def fallbackLookup (store : Store) (documentId : PyStr) : Except PyStr PyStr :=
  match store.document_chunks.find? (fun p => p.1 == documentId) with
  | some _ => .error "0".toList
  | none => .ok []

/-- The fallback-sample generation chain (only reachable with a non-empty
`document_text`): try the selected model, else the first available other
provider in the order gemini, openai, claude, mistral; any raised error is
caught by the inner handler. -/
def fallbackGenerate (env : Env) (oracle : Oracle) (q model : PyStr)
    (hist : List Msg) (documentText : PyStr) : AQResult :=
  let fallbackContext := "Document sample: ".toList ++ documentText.take 500
    ++ "...".toList
  let fbMessage := "Using document sample as no relevant chunks were found.".toList
  let finish : PyStr → Except PyStr PyStr → AQResult := fun modelUsed r =>
    match r with
    | .ok answer => .fallbackSuccess answer [] true fbMessage modelUsed
    | .error e => .error ("Failed to generate fallback answer: ".toList ++ e)
  if model = "gemini".toList && env.hasGenai && env.geminiKey then
    finish model (generateAnswerGemini env oracle q fallbackContext hist)
  else if model = "openai".toList && env.hasOpenai && env.openaiKey then
    finish model (generateAnswerOpenai env oracle q fallbackContext hist)
  else if model = "claude".toList && env.hasAnthropic && env.anthropicKey then
    finish model (generateAnswerClaude env oracle q fallbackContext hist)
  else if model = "mistral".toList && env.hasMistral && env.mistralKey then
    finish model (generateAnswerMistral env oracle q fallbackContext hist)
  else if !(model == "gemini".toList) && env.hasGenai && env.geminiKey then
    finish "gemini".toList (generateAnswerGemini env oracle q fallbackContext hist)
  else if !(model == "openai".toList) && env.hasOpenai && env.openaiKey then
    finish "openai".toList (generateAnswerOpenai env oracle q fallbackContext hist)
  else if !(model == "claude".toList) && env.hasAnthropic && env.anthropicKey then
    finish "claude".toList (generateAnswerClaude env oracle q fallbackContext hist)
  else if !(model == "mistral".toList) && env.hasMistral && env.mistralKey then
    finish "mistral".toList (generateAnswerMistral env oracle q fallbackContext hist)
  else .error "No AI models available for fallback response.".toList

/-- The context string `"\n\n".join(chunk["chunk_text"] for chunk in relevant_chunks)`. -/
def contextOf (relevantChunks : List RetrievedChunk) : PyStr :=
  List.intercalate "\n\n".toList (relevantChunks.map (fun c => c.chunk_text))

/-- The body of `answer_question` inside its top-level `try`; a raised
exception is the `Except.error` case. -/
noncomputable def answerQuestionBody (env : Env) (oracle : Oracle) (store : Store)
    (question documentId model : PyStr) (hist : List Msg) :
    Except PyStr AQResult := do
  let relevantChunks ← retrieveRelevantChunks env oracle store question documentId 3
  if relevantChunks.isEmpty then
    let documentText ← fallbackLookup store documentId
    if documentText = [] then
      pure (.error "No relevant content found in the document to answer this question.".toList)
    else
      pure (fallbackGenerate env oracle question model hist documentText)
  else
    let context := contextOf relevantChunks
    let processedHistory := hist
    let availableModels := buildAvailableModels env model
    if availableModels.isEmpty then
      pure (.error "No AI models available for generating responses.".toList)
    else
      pure (tryModels (genDispatch env oracle question context processedHistory)
        relevantChunks availableModels none)

/-- Embedding of `RAGProcessor.answer_question`: the top-level `except` turns any raised
exception into the `status: "error"` dict with `error = str(e)`.  (The
source's dead "sources" block after the in-loop returns is unreachable and
omitted.) -/
noncomputable def answerQuestion (env : Env) (oracle : Oracle) (store : Store)
    (question documentId model : PyStr) (hist : List Msg) : AQResult :=
  match answerQuestionBody env oracle store question documentId model hist with
  | .ok r => r
  | .error e => .error e

/-- The result dict of `process_document`, one constructor per return shape. -/
inductive PDResult where
  | success (documentId : PyStr) (chunkCount : Nat) (chunkIds : List PyStr)
      (warning : Option PyStr)
  | error (msg : PyStr)
deriving DecidableEq, Repr

/-- The embedding/storage loop of `process_document` when OpenAI is
available: embed each chunk, store it (Supabase when configured, otherwise
the in-memory dicts), collect chunk ids.  An exception leaves the stores as
mutated so far. -/
def ingestEmbedLoop (env : Env) (oracle : Oracle) (docId : PyStr) :
    List PyStr → Nat → Store → List PyStr →
    Except PyStr (List PyStr) × Store
  | [], _, s, acc => (.ok acc.reverse, s)
  | chunk :: rest, i, s, acc =>
    let chunkId := chunkIdOf docId i
    match generateEmbeddingOpenai env oracle chunk with
    | .error e => (.error e, s)
    | .ok embedding =>
      if env.hasSupabase then
        match oracle.storeChunk chunkId docId chunk embedding with
        | .error e => (.error e, s)
        | .ok _ => ingestEmbedLoop env oracle docId rest (i + 1) s (chunkId :: acc)
      else
        let s' : Store :=
          { document_chunks :=
              upsert s.document_chunks chunkId
                { document_id := docId, chunk_text := chunk, chunk_index := i },
            document_embeddings := upsert s.document_embeddings chunkId embedding }
        ingestEmbedLoop env oracle docId rest (i + 1) s' (chunkId :: acc)

/-- The storage loop of `process_document` without OpenAI: store the chunks
in memory without embeddings. -/
def ingestPlainLoop (docId : PyStr) :
    List PyStr → Nat → Store → List PyStr → List PyStr × Store
  | [], _, s, acc => (acc.reverse, s)
  | chunk :: rest, i, s, acc =>
    let chunkId := chunkIdOf docId i
    let s' : Store :=
      { document_chunks :=
          upsert s.document_chunks chunkId
            { document_id := docId, chunk_text := chunk, chunk_index := i },
        document_embeddings := s.document_embeddings }
    ingestPlainLoop docId rest (i + 1) s' (chunkId :: acc)

/-- Embedding of `RAGProcessor.process_document`.  `none` models the non-terminating
chunking loop (the call never returns); otherwise the result dict and the
final state of the in-memory stores are returned, the top-level `except`
turning a raised exception into the error dict with `error = str(e)`. -/
def processDocument (env : Env) (oracle : Oracle) (store : Store)
    (documentId documentText : PyStr) (size overlap : Nat) :
    Option (PDResult × Store) :=
  match chunkDocument documentText size overlap with
  | none => none
  | some chunks =>
    if env.hasOpenai && env.openaiKey then
      match ingestEmbedLoop env oracle documentId chunks 0 store [] with
      | (.ok chunkIds, s') =>
        some (.success documentId chunks.length chunkIds none, s')
      | (.error e, s') => some (.error e, s')
    else
      let r := ingestPlainLoop documentId chunks 0 store []
      some (.success documentId chunks.length r.1
        (some "Embeddings not generated due to missing OpenAI API key".toList), r.2)

/-! ## Concrete fixtures used by the closed theorems and witnesses -/

/-- No provider library or credential, no Supabase. -/
def envNone : Env := ⟨false, false, false, false, false, false, false, false, false⟩

/-- Gemini and Mistral libraries and credentials present; OpenAI absent, so
retrieval uses keyword mode; no Supabase. -/
def envKeyword : Env := ⟨false, false, true, true, false, false, true, true, false⟩

/-- Only Gemini available; keyword retrieval mode; no Supabase. -/
def envGeminiOnly : Env := ⟨false, false, true, true, false, false, false, false, false⟩

/-- OpenAI and Gemini available (vector retrieval mode); no Supabase. -/
def envVector : Env := ⟨true, true, true, true, false, false, false, false, false⟩

/-- Every provider's library and credential present; no Supabase. -/
def envAllProviders : Env := ⟨true, true, true, true, true, true, true, true, false⟩

/-- All external calls succeed. -/
def oracleHappy : Oracle :=
  { embed := fun _ => .ok [], matchChunks := fun _ _ _ => .ok [],
    storeChunk := fun _ _ _ _ => .ok (),
    genGemini := fun _ _ _ => .ok "ans".toList,
    genOpenai := fun _ _ _ => .ok "oans".toList,
    genClaude := fun _ _ _ => .ok "cans".toList,
    genMistral := fun _ _ _ => .ok "mans".toList }

/-- Every generation call raises (with message "boom"); embedding succeeds. -/
def oracleGenFail : Oracle :=
  { embed := fun _ => .ok [], matchChunks := fun _ _ _ => .ok [],
    storeChunk := fun _ _ _ _ => .ok (),
    genGemini := fun _ _ _ => .error "boom".toList,
    genOpenai := fun _ _ _ => .error "boom".toList,
    genClaude := fun _ _ _ => .error "boom".toList,
    genMistral := fun _ _ _ => .error "boom".toList }

/-- The embedding call raises an exception whose `str()` is empty. -/
def oracleEmbedEmptyErr : Oracle :=
  { embed := fun _ => .error [], matchChunks := fun _ _ _ => .ok [],
    storeChunk := fun _ _ _ _ => .ok (),
    genGemini := fun _ _ _ => .ok "ans".toList,
    genOpenai := fun _ _ _ => .ok "oans".toList,
    genClaude := fun _ _ _ => .ok "cans".toList,
    genMistral := fun _ _ _ => .ok "mans".toList }

/-- Empty stores. -/
def emptyStore : Store := ⟨[], []⟩

/-- One stored chunk (no embedding) belonging to document `"doc1"`. -/
def sampleStore : Store :=
  ⟨[(chunkIdOf "doc1".toList 0, ⟨"doc1".toList, "alpha beta".toList, 0⟩)], []⟩

/-- Two stored chunks of document `"d"`, ingestion order 0, 1. -/
def pairStore : Store :=
  ⟨[(chunkIdOf "d".toList 0, ⟨"d".toList, "x y".toList, 0⟩),
    (chunkIdOf "d".toList 1, ⟨"d".toList, "x z".toList, 1⟩)], []⟩

/-- One stored chunk belonging to a different document. -/
def otherDocStore : Store :=
  ⟨[(chunkIdOf "other".toList 0, ⟨"other".toList, "x".toList, 0⟩)], []⟩

/-- The ordering a stable descending-by-key sort establishes: strictly
smaller key after, equal keys in the original order `Q`. -/
def scoreOrder {α β : Type} [LinearOrder β] (Q : α × β → α × β → Prop)
    (p q : α × β) : Prop :=
  q.2 < p.2 ∨ (p.2 = q.2 ∧ Q p q)

/-- Observer for stating the retrieval-ordering claim: the score the
retrieval computed for an output element, per mode — the cosine similarity
of the query embedding with the element's stored embedding in vector mode,
the keyword-overlap count (an integer, cast into ℝ) in keyword mode. -/
noncomputable def retrievalScore (env : Env) (oracle : Oracle) (store : Store)
    (query : PyStr) (r : RetrievedChunk) : ℝ :=
  if env.hasOpenai && env.openaiKey then
    cosineSimilarity ((oracle.embed query).toOption.getD [])
      ((alookup store.document_embeddings r.id).getD [])
  else
    ((keywordScoreOf query r.chunk_text : Nat) : ℝ)

/-- Observer: the first provider in the list whose generation call
succeeds, with its answer. -/
def firstSuccess (gen : PyStr → Option (Except PyStr PyStr)) :
    List PyStr → Option (PyStr × PyStr)
  | [] => none
  | m :: ms =>
    match gen m with
    | some (.ok a) => some (m, a)
    | _ => firstSuccess gen ms

/-- Modelled from the spec's words, for comparison with the code: a
provider is available when its library and credential are present — for
mistral as well. -/
def claimedAvailability (env : Env) (m : PyStr) : Bool :=
  if m = "gemini".toList then env.hasGenai && env.geminiKey
  else if m = "openai".toList then env.hasOpenai && env.openaiKey
  else if m = "claude".toList then env.hasAnthropic && env.anthropicKey
  else if m = "mistral".toList then env.hasMistral && env.mistralKey
  else false

/-- Modelled from the claim's words: the requested model (if available)
followed by the remaining providers of the fixed priority order, filtered
by credential-and-library availability. -/
def claimedPreferenceOrder (env : Env) (model : PyStr) : List PyStr :=
  (if claimedAvailability env model then [model] else []) ++
    fallbackOrder.filter (fun fm => !(fm == model) && claimedAvailability env fm)

/-- The store produced by ingesting `"alpha beta gamma"` as `"doc1"` with
`chunk_size = 2`, `chunk_overlap = 1` in keyword mode. -/
def ingestedStore : Store :=
  ⟨[(chunkIdOf "doc1".toList 0, ⟨"doc1".toList, "alpha beta".toList, 0⟩),
    (chunkIdOf "doc1".toList 1, ⟨"doc1".toList, "beta gamma".toList, 1⟩),
    (chunkIdOf "doc1".toList 2, ⟨"doc1".toList, "gamma".toList, 2⟩)], []⟩

/-- Every exception the external calls can raise has a non-empty `str()`. -/
def OracleMsgsNonempty (o : Oracle) : Prop :=
  (∀ t e, o.embed t = .error e → e ≠ []) ∧
  (∀ qe d k e, o.matchChunks qe d k = .error e → e ≠ []) ∧
  (∀ a b c emb e, o.storeChunk a b c emb = .error e → e ≠ []) ∧
  (∀ q c h e, o.genGemini q c h = .error e → e ≠ []) ∧
  (∀ q c h e, o.genOpenai q c h = .error e → e ≠ []) ∧
  (∀ q c h e, o.genClaude q c h = .error e → e ≠ []) ∧
  (∀ q c h e, o.genMistral q c h = .error e → e ≠ [])

/-! ## Chunking: termination, divergence, and window structure -/

/-- With a non-positive step the chunking loop never leaves a non-positive
index, so on a non-empty word list it runs forever: no amount of fuel makes
it return. -/
theorem chunkLoopF_none_of_nonpos_step (ws : List PyStr) (size : Nat)
    (step : Int) (hstep : step ≤ 0) (hlen : 0 < ws.length) :
    ∀ fuel : Nat, ∀ i : Int, i ≤ 0 → chunkLoopF fuel ws size step i = none := by
  intro fuel
  induction fuel with
  | zero => intro i _; rfl
  | succ f ih =>
    intro i hi
    have hcond : i < (ws.length : Int) := by
      have : (0 : Int) < (ws.length : Int) := by exact_mod_cast hlen
      omega
    simp only [chunkLoopF, if_pos hcond]
    rw [ih (i + step) (by omega)]

/-- With a positive step `s1 + 1`, fuel exceeding the remaining word count
is enough, and the loop returns exactly the windows of `size` words at the
starts `i, i + step, i + 2·step, …` below the word count. -/
theorem chunkLoopF_pos_step (ws : List PyStr) (size s1 : Nat) :
    ∀ fuel i : Nat, 0 < fuel → ws.length < fuel + i →
      chunkLoopF fuel ws size ((s1 : Int) + 1) (i : Int) =
        some ((windowStarts ws.length s1 i).map
          (fun o => joinWords ((ws.drop o).take size))) := by
  intro fuel
  induction fuel with
  | zero => intro i h0 _; omega
  | succ f ih =>
    intro i _ hlt
    by_cases hi : i < ws.length
    · have hcond : (i : Int) < (ws.length : Int) := by exact_mod_cast hi
      have hstep : (i : Int) + ((s1 : Int) + 1) = ((i + s1 + 1 : Nat) : Int) := by
        push_cast; ring
      have hf : 0 < f := by omega
      have hws : windowStarts ws.length s1 i =
          i :: windowStarts ws.length s1 (i + s1 + 1) := by
        rw [windowStarts]; rw [if_pos hi]
      simp only [chunkLoopF, if_pos hcond, hstep, ih (i + s1 + 1) hf (by omega), hws]
      simp [pyWindow]
    · have hcond : ¬ ((i : Int) < (ws.length : Int)) := by
        intro h; exact hi (by exact_mod_cast h)
      have hws : windowStarts ws.length s1 i = [] := by
        rw [windowStarts]; rw [if_neg hi]
      simp only [chunkLoopF, if_neg hcond, hws]
      rfl

/-- The window starts are exactly the multiples of the step below the word
count: `i, i + (s1+1), i + 2·(s1+1), …`. -/
theorem windowStarts_eq_range (len s1 : Nat) :
    ∀ i : Nat, windowStarts len s1 i =
      (List.range ((len - i + s1) / (s1 + 1))).map (fun k => i + k * (s1 + 1)) := by
  intro i
  induction i using windowStarts.induct len s1 with
  | case1 i hi ih =>
    have hcount : (len - i + s1) / (s1 + 1) =
        (len - (i + s1 + 1) + s1) / (s1 + 1) + 1 := by
      rcases Nat.lt_or_ge len (i + s1 + 1) with hA | hA
      · have h1 : len - (i + s1 + 1) + s1 = s1 := by omega
        have h2 : s1 / (s1 + 1) = 0 := Nat.div_eq_of_lt (by omega)
        have h3 : (len - i + s1) / (s1 + 1) = 1 := by
          apply Nat.div_eq_of_lt_le
          · omega
          · have : Nat.succ 1 * (s1 + 1) = 2 * s1 + 2 := by ring
            omega
        rw [h1, h2, h3]
      · have h1 : len - i + s1 = (len - (i + s1 + 1) + s1) + (s1 + 1) := by omega
        rw [h1, Nat.add_div_right _ (Nat.succ_pos s1)]
    have hfun : ((fun k => i + k * (s1 + 1)) ∘ Nat.succ) =
        fun k => i + s1 + 1 + k * (s1 + 1) := by
      funext k
      simp only [Function.comp_apply, Nat.succ_eq_add_one]
      ring
    rw [windowStarts, if_pos hi, ih, hcount, List.range_succ_eq_map]
    simp only [List.map_cons, List.map_map, Nat.zero_mul, Nat.add_zero, hfun]
  | case2 i hi =>
    rw [windowStarts, if_neg hi]
    have h0 : (len - i + s1) / (s1 + 1) = 0 := Nat.div_eq_of_lt (by omega)
    rw [h0]
    rfl

/-- C2: `_chunk_document` performs no validation of its parameters: with
`chunk_overlap ≥ chunk_size` and more than `chunk_size` words it neither
raises an `InvalidConfiguration` error nor terminates — the loop returns
under no amount of fuel, i.e. it runs forever. -/
theorem c2_no_overlap_validation (text : PyStr) (size overlap : Nat)
    (hov : size ≤ overlap) (hlen : size < (pySplit text).length) :
    chunkDocument text size overlap = none ∧
    ∀ fuel : Nat,
      chunkLoopF fuel (pySplit text) size ((size : Int) - (overlap : Int)) 0 = none := by
  have hstep : ((size : Int) - (overlap : Int)) ≤ 0 := by omega
  have hpos : 0 < (pySplit text).length := by omega
  have hloop := chunkLoopF_none_of_nonpos_step (pySplit text) size _ hstep hpos
  refine ⟨?_, fun fuel => hloop fuel 0 le_rfl⟩
  unfold chunkDocument
  simp only [if_neg (by omega : ¬ (pySplit text).length ≤ size)]
  exact hloop _ 0 le_rfl

/-- Witness for C2 at `text = "a b c"`, `chunk_size = chunk_overlap = 2`. -/
theorem c2_no_overlap_validation_witness :
    2 ≤ 2 ∧ 2 < (pySplit "a b c".toList).length ∧
    (chunkDocument "a b c".toList 2 2 = none ∧
      ∀ fuel : Nat,
        chunkLoopF fuel (pySplit "a b c".toList) 2 ((2 : Int) - (2 : Int)) 0 = none) :=
  ⟨le_rfl, by decide, c2_no_overlap_validation "a b c".toList 2 2 le_rfl (by decide)⟩

/-- C5: for `0 < chunk_overlap < chunk_size`, chunking terminates; a text of
at most `chunk_size` words gives the single chunk `[text]`, and otherwise
the chunks are the `chunk_size`-word windows at the offsets `0, step,
2·step, …` (`step = chunk_size − chunk_overlap`), stopping once the start
reaches the word count; in particular 1200 words with size 500 / overlap
100 give exactly the three windows at offsets 0, 400, 800. -/
theorem c5_chunk_windows (text : PyStr) (size overlap : Nat)
    (h1 : 0 < overlap) (h2 : overlap < size) :
    (chunkDocument text size overlap = some (
      if (pySplit text).length ≤ size then [text]
      else (windowStarts (pySplit text).length (size - overlap - 1) 0).map
        (fun o => joinWords (((pySplit text).drop o).take size))))
    ∧ windowStarts (pySplit text).length (size - overlap - 1) 0 =
        (List.range
            (((pySplit text).length + (size - overlap) - 1) / (size - overlap))).map
          (fun k => k * (size - overlap))
    ∧ ((pySplit text).length = 1200 →
        chunkDocument text 500 100 = some
          [joinWords ((pySplit text).take 500),
           joinWords (((pySplit text).drop 400).take 500),
           joinWords (((pySplit text).drop 800).take 500)]) := by
  refine ⟨?_, ?_, ?_⟩
  · unfold chunkDocument
    by_cases hle : (pySplit text).length ≤ size
    · simp [hle]
    · simp only [if_neg hle]
      have hstep : ((size : Int) - (overlap : Int)) =
          ((size - overlap - 1 : Nat) : Int) + 1 := by omega
      have h0 : ((0 : Nat) : Int) = (0 : Int) := rfl
      rw [hstep, ← h0,
        chunkLoopF_pos_step (pySplit text) size (size - overlap - 1)
          ((pySplit text).length + 1) 0 (by omega) (by omega)]
  · rw [windowStarts_eq_range (pySplit text).length (size - overlap - 1) 0]
    have harith : (pySplit text).length - 0 + (size - overlap - 1) =
        (pySplit text).length + (size - overlap) - 1 := by omega
    have hst : size - overlap - 1 + 1 = size - overlap := by omega
    simp only [harith, hst, Nat.zero_add]
  · intro hl
    unfold chunkDocument
    simp only [if_neg (by omega : ¬ (pySplit text).length ≤ 500)]
    have hstep : ((500 : Nat) : Int) - ((100 : Nat) : Int) =
        ((399 : Nat) : Int) + 1 := by norm_num
    have h0 : ((0 : Nat) : Int) = (0 : Int) := rfl
    rw [hstep, ← h0,
      chunkLoopF_pos_step (pySplit text) 500 399 ((pySplit text).length + 1) 0
        (by omega) (by omega),
      windowStarts_eq_range (pySplit text).length 399 0, hl]
    norm_num [List.range_succ]

/-- Witness for C5 at `text = "a b c"`, `chunk_size = 2`, `chunk_overlap = 1`. -/
theorem c5_chunk_windows_witness :
    0 < 1 ∧ 1 < 2 ∧
    ((chunkDocument "a b c".toList 2 1 = some (
        if (pySplit "a b c".toList).length ≤ 2 then ["a b c".toList]
        else (windowStarts (pySplit "a b c".toList).length (2 - 1 - 1) 0).map
          (fun o => joinWords (((pySplit "a b c".toList).drop o).take 2))))
      ∧ windowStarts (pySplit "a b c".toList).length (2 - 1 - 1) 0 =
          (List.range
              (((pySplit "a b c".toList).length + (2 - 1) - 1) / (2 - 1))).map
            (fun k => k * (2 - 1))
      ∧ ((pySplit "a b c".toList).length = 1200 →
          chunkDocument "a b c".toList 500 100 = some
            [joinWords ((pySplit "a b c".toList).take 500),
             joinWords (((pySplit "a b c".toList).drop 400).take 500),
             joinWords (((pySplit "a b c".toList).drop 800).take 500)])) :=
  ⟨Nat.one_pos, Nat.one_lt_two,
    c5_chunk_windows "a b c".toList 2 1 Nat.one_pos Nat.one_lt_two⟩

/-! ## Cosine similarity -/

theorem dotList_self_nonneg (v : List ℝ) : 0 ≤ dotList v v := by
  induction v with
  | nil => simp [dotList]
  | cons x xs ih =>
    simp only [dotList, List.zipWith_cons_cons, List.sum_cons] at *
    exact add_nonneg (mul_self_nonneg x) ih

theorem dotList_self_pos (v : List ℝ) (hx : ∃ x ∈ v, x ≠ 0) :
    0 < dotList v v := by
  induction v with
  | nil => simp at hx
  | cons x xs ih =>
    simp only [dotList, List.zipWith_cons_cons, List.sum_cons] at *
    rcases hx with ⟨y, hy, hy0⟩
    rcases List.mem_cons.mp hy with rfl | hmem
    · exact add_pos_of_pos_of_nonneg (mul_self_pos.mpr hy0) (dotList_self_nonneg xs)
    · exact add_pos_of_nonneg_of_pos (mul_self_nonneg x) (ih ⟨y, hmem, hy0⟩)

/-- C8: `_cosine_similarity` of a non-zero vector with itself is exactly 1,
and whenever either argument has norm 0 (in particular against the zero
vector) the result is exactly 0. -/
theorem c8_cosine_self_and_zero :
    (∀ v : List ℝ, (∃ x ∈ v, x ≠ 0) → cosineSimilarity v v = 1) ∧
    (∀ v w : List ℝ,
      Real.sqrt (dotList v v) = 0 ∨ Real.sqrt (dotList w w) = 0 →
        cosineSimilarity v w = 0) := by
  constructor
  · intro v hv
    have hpos : 0 < dotList v v := dotList_self_pos v hv
    have hs : Real.sqrt (dotList v v) ≠ 0 :=
      ne_of_gt (Real.sqrt_pos.mpr hpos)
    simp only [cosineSimilarity]
    rw [if_neg (by tauto)]
    rw [Real.mul_self_sqrt (le_of_lt hpos)]
    exact div_self (ne_of_gt hpos)
  · intro v w h
    simp only [cosineSimilarity]
    rw [if_pos h]

/-- Witness for C8 at `v = [1, 0]` and `w = [0]`. -/
theorem c8_cosine_self_and_zero_witness :
    cosineSimilarity [(1 : ℝ), 0] [(1 : ℝ), 0] = 1 ∧
    cosineSimilarity [(1 : ℝ), 0] [(0 : ℝ)] = 0 :=
  ⟨c8_cosine_self_and_zero.1 [(1 : ℝ), 0] ⟨1, by simp, one_ne_zero⟩,
   c8_cosine_self_and_zero.2 [(1 : ℝ), 0] [(0 : ℝ)]
     (Or.inr (by simp [dotList]))⟩

/-! ## Retrieval on documents with no stored chunks -/

/-- C7: in both in-memory modes, retrieval for a document with no stored
chunks returns the empty list without raising: the vector path (query
embedded successfully, Supabase absent) and the keyword path both return
`[]`. -/
theorem c7_empty_document_retrieval (env : Env) (oracle : Oracle)
    (store : Store) (query documentId : PyStr) (k : Nat)
    (hsup : env.hasSupabase = false)
    (hemb : ∃ v, oracle.embed query = .ok v)
    (hnone : ∀ p ∈ store.document_chunks, p.2.document_id ≠ documentId) :
    retrieveRelevantChunks env oracle store query documentId k = .ok [] := by
  have hfilt : store.document_chunks.filter
      (fun p => p.2.document_id == documentId) = [] := by
    rw [List.filter_eq_nil_iff]
    intro p hp
    simpa using hnone p hp
  rcases hemb with ⟨v, hv⟩
  by_cases hmode : env.hasOpenai && env.openaiKey
  · simp [retrieveRelevantChunks, hmode, generateEmbeddingOpenai, hv, hsup,
      inMemoryVectorSearch, hfilt]
  · simp [retrieveRelevantChunks, hmode, keywordSearch, hfilt]
    rfl

/-- Witness for C7: both modes on a store holding no chunk of `"d"`. -/
theorem c7_empty_document_retrieval_witness :
    (envKeyword.hasSupabase = false ∧ envVector.hasSupabase = false) ∧
    (∃ v, oracleHappy.embed "q".toList = .ok v) ∧
    (∀ p ∈ otherDocStore.document_chunks, p.2.document_id ≠ "d".toList) ∧
    retrieveRelevantChunks envKeyword oracleHappy otherDocStore
      "q".toList "d".toList 3 = .ok [] ∧
    retrieveRelevantChunks envVector oracleHappy otherDocStore
      "q".toList "d".toList 3 = .ok [] :=
  ⟨⟨rfl, rfl⟩, ⟨[], rfl⟩, by decide,
    c7_empty_document_retrieval envKeyword oracleHappy otherDocStore
      "q".toList "d".toList 3 rfl ⟨[], rfl⟩ (by decide),
    c7_empty_document_retrieval envVector oracleHappy otherDocStore
      "q".toList "d".toList 3 rfl ⟨[], rfl⟩ (by decide)⟩

/-! ## Stable descending sort: ordering and stability -/

theorem mem_insertDescBySnd {α β : Type} [LinearOrder β] (x a : α × β) :
    ∀ l : List (α × β), a ∈ insertDescBySnd x l ↔ a = x ∨ a ∈ l := by
  intro l
  induction l with
  | nil => simp [insertDescBySnd]
  | cons y ys ih =>
    by_cases hle : y.2 ≤ x.2
    · simp [insertDescBySnd, hle]
    · simp only [insertDescBySnd, if_neg hle, List.mem_cons, ih]
      tauto

theorem mem_sortDescBySnd {α β : Type} [LinearOrder β] (a : α × β) :
    ∀ l : List (α × β), a ∈ sortDescBySnd l ↔ a ∈ l := by
  intro l
  induction l with
  | nil => simp [sortDescBySnd]
  | cons y ys ih =>
    simp only [sortDescBySnd, List.foldr_cons] at *
    rw [mem_insertDescBySnd, ih, List.mem_cons]

theorem pairwise_insertDescBySnd {α β : Type} [LinearOrder β]
    (Q : α × β → α × β → Prop) (x : α × β) :
    ∀ l : List (α × β), l.Pairwise (scoreOrder Q) → (∀ y ∈ l, Q x y) →
      (insertDescBySnd x l).Pairwise (scoreOrder Q) := by
  intro l
  induction l with
  | nil => intro _ _; simp [insertDescBySnd]
  | cons y ys ih =>
    intro hl hx
    rcases List.pairwise_cons.mp hl with ⟨hy, hys⟩
    by_cases hle : y.2 ≤ x.2
    · simp only [insertDescBySnd, if_pos hle]
      refine List.Pairwise.cons ?_ hl
      intro z hz
      rcases List.mem_cons.mp hz with rfl | hmem
      · rcases lt_or_eq_of_le hle with hlt | heq
        · exact Or.inl hlt
        · exact Or.inr ⟨heq.symm, hx z (List.mem_cons_self z ys)⟩
      · rcases hy z hmem with hlt | ⟨heq, _⟩
        · exact Or.inl (lt_of_lt_of_le hlt hle)
        · rcases lt_or_eq_of_le hle with hlt' | heq'
          · exact Or.inl (heq ▸ hlt')
          · exact Or.inr ⟨heq' ▸ heq, hx z (List.mem_cons_of_mem y hmem)⟩
    · simp only [insertDescBySnd, if_neg hle]
      refine List.Pairwise.cons ?_ (ih hys (fun z hz => hx z (List.mem_cons_of_mem y hz)))
      intro z hz
      rcases (mem_insertDescBySnd x z ys).mp hz with rfl | hmem
      · exact Or.inl (lt_of_not_le hle)
      · exact hy z hmem

theorem pairwise_sortDescBySnd {α β : Type} [LinearOrder β]
    (Q : α × β → α × β → Prop) :
    ∀ l : List (α × β), l.Pairwise Q → (sortDescBySnd l).Pairwise (scoreOrder Q) := by
  intro l
  induction l with
  | nil => intro _; simp [sortDescBySnd]
  | cons a t ih =>
    intro h
    rcases List.pairwise_cons.mp h with ⟨ha, ht⟩
    simp only [sortDescBySnd, List.foldr_cons]
    exact pairwise_insertDescBySnd Q a _ (ih ht)
      (fun y hy => ha y ((mem_sortDescBySnd y t).mp hy))

/-- Association-list lookup of a present key under unique keys. -/
theorem alookup_eq_of_mem_nodup {β : Type} :
    ∀ l : List (PyStr × β), keysNodup l → ∀ k : PyStr, ∀ c : β,
      (k, c) ∈ l → alookup l k = some c := by
  intro l
  induction l with
  | nil => intro _ k c h; simp at h
  | cons p ps ih =>
    intro hnd k c hmem
    rcases List.nodup_cons.mp hnd with ⟨hnotin, hnd'⟩
    rcases List.mem_cons.mp hmem with rfl | hmem'
    · simp [alookup]
    · have hne : p.1 ≠ k := by
        intro h
        exact hnotin (h ▸ List.mem_map_of_mem Prod.fst hmem')
      simp only [alookup, if_neg hne]
      exact ih hnd' k c hmem'

/-- The retrieval pipeline shared by both in-memory modes: score the
document's chunks in store order, stable-sort descending, take `top_k`,
re-index the store.  Whenever the store lists the document's chunks with
increasing `chunk_index` (a single ingestion) and `e` embeds the score type
monotonically into the output score type, the output is sorted by score
descending with ties in ascending `chunk_index`. -/
theorem pipeline_pairwise {γ δ : Type} [LinearOrder γ] [LinearOrder δ]
    (dc : List (PyStr × ChunkRec)) (documentId : PyStr)
    (g : PyStr × ChunkRec → Option (PyStr × γ))
    (scf : PyStr → ChunkRec → γ) (scrOut : RetrievedChunk → δ)
    (e : γ → δ) (k : Nat)
    (hkeys : keysNodup dc)
    (hing : dc.Pairwise (fun p q => p.2.document_id = documentId →
      q.2.document_id = documentId → p.2.chunk_index < q.2.chunk_index))
    (hg : ∀ p x, g p = some x →
      x = (p.1, scf p.1 p.2) ∧ p.2.document_id = documentId)
    (hsc : ∀ cid c, alookup dc cid = some c →
      scrOut (mkRetrieved cid c) = e (scf cid c))
    (hlt : ∀ a b : γ, e a < e b ↔ a < b) :
    ((((sortDescBySnd (dc.filterMap g)).take k).map Prod.fst).filterMap
      (fun cid => (alookup dc cid).map (mkRetrieved cid))).Pairwise
      (fun a b => scrOut b < scrOut a ∨
        (scrOut a = scrOut b ∧ a.chunk_index < b.chunk_index)) := by
  have hinj : ∀ a b : γ, e a = e b → a = b := by
    intro a b hab
    rcases lt_trichotomy a b with h | h | h
    · exact absurd ((hlt a b).mpr h) (by rw [hab]; exact lt_irrefl _)
    · exact h
    · exact absurd ((hlt b a).mpr h) (by rw [hab]; exact lt_irrefl _)
  set fidx : PyStr → Nat :=
    fun cid => ((alookup dc cid).map ChunkRec.chunk_index).getD 0 with hfidx
  set Qf : (PyStr × γ) → (PyStr × γ) → Prop :=
    fun p q => fidx p.1 < fidx q.1 with hQf
  -- facts about an element of the scored list
  have hfact : ∀ p ∈ dc.filterMap g, ∃ c : ChunkRec,
      alookup dc p.1 = some c ∧ c.document_id = documentId ∧
      p.2 = scf p.1 c ∧ fidx p.1 = c.chunk_index := by
    intro p hp
    obtain ⟨a, ha, hga⟩ := List.mem_filterMap.mp hp
    obtain ⟨hpe, had⟩ := hg a p hga
    have hla : alookup dc a.1 = some a.2 :=
      alookup_eq_of_mem_nodup dc hkeys a.1 a.2 ha
    refine ⟨a.2, ?_, had, ?_, ?_⟩
    · rw [hpe]; exact hla
    · rw [hpe]
    · rw [hpe]; simp [hfidx, hla]
  -- the scored list is in ascending chunk_index order
  have hQ : (dc.filterMap g).Pairwise Qf := by
    rw [List.pairwise_filterMap]
    refine hing.imp_of_mem ?_
    intro a b ha hb hrel x hx y hy
    obtain ⟨hxe, hxd⟩ := hg a x hx
    obtain ⟨hye, hyd⟩ := hg b y hy
    have hla : alookup dc a.1 = some a.2 :=
      alookup_eq_of_mem_nodup dc hkeys a.1 a.2 ha
    have hlb : alookup dc b.1 = some b.2 :=
      alookup_eq_of_mem_nodup dc hkeys b.1 b.2 hb
    show fidx x.1 < fidx y.1
    rw [hxe, hye]
    simp only [hfidx, hla, hlb, Option.map_some, Option.getD_some]
    exact hrel hxd hyd
  have hsorted := pairwise_sortDescBySnd Qf (dc.filterMap g) hQ
  have htake := hsorted.sublist (List.take_sublist k _)
  rw [List.filterMap_map, List.pairwise_filterMap]
  refine htake.imp_of_mem ?_
  intro p q hp hq hrel x hx y hy
  have hp' : p ∈ dc.filterMap g :=
    (mem_sortDescBySnd p _).mp (List.mem_of_mem_take hp)
  have hq' : q ∈ dc.filterMap g :=
    (mem_sortDescBySnd q _).mp (List.mem_of_mem_take hq)
  obtain ⟨c, hc, hcd, hps, hpi⟩ := hfact p hp'
  obtain ⟨d, hd, hdd, hqs, hqi⟩ := hfact q hq'
  simp only [Function.comp_apply, hc, Option.mem_def, Option.map_some',
    Option.some_inj] at hx
  simp only [Function.comp_apply, hd, Option.mem_def, Option.map_some',
    Option.some_inj] at hy
  have hsx : scrOut x = e p.2 := by rw [← hx, hsc p.1 c hc, hps]
  have hsy : scrOut y = e q.2 := by rw [← hy, hsc q.1 d hd, hqs]
  have hix : x.chunk_index = fidx p.1 := by rw [← hx, hpi]; rfl
  have hiy : y.chunk_index = fidx q.1 := by rw [← hy, hqi]; rfl
  rcases hrel with hlt' | ⟨heq, hQpq⟩
  · exact Or.inl (by rw [hsx, hsy]; exact (hlt _ _).mpr hlt')
  · refine Or.inr ⟨by rw [hsx, hsy, heq], ?_⟩
    rw [hix, hiy]
    exact hQpq

/-- C6: in both in-memory retrieval modes, on a store populated by a single
ingestion of the document (unique dict keys, the document's chunks listed
in ascending `chunk_index` order), the retrieval output is sorted by score
in descending order, and elements with equal scores appear in ascending
`chunk_index` order. -/
theorem c6_retrieval_ordering (env : Env) (oracle : Oracle) (store : Store)
    (query documentId : PyStr) (k : Nat)
    (hsup : env.hasSupabase = false)
    (hemb : ∃ v, oracle.embed query = .ok v)
    (hkeys : keysNodup store.document_chunks)
    (hing : store.document_chunks.Pairwise
      (fun p q => p.2.document_id = documentId →
        q.2.document_id = documentId → p.2.chunk_index < q.2.chunk_index)) :
    ∃ out, retrieveRelevantChunks env oracle store query documentId k = .ok out ∧
      out.Pairwise (fun a b =>
        retrievalScore env oracle store query b
            < retrievalScore env oracle store query a ∨
        (retrievalScore env oracle store query a
            = retrievalScore env oracle store query b ∧
          a.chunk_index < b.chunk_index)) := by
  obtain ⟨qe, hv⟩ := hemb
  by_cases hmode : (env.hasOpenai && env.openaiKey) = true
  · refine ⟨inMemoryVectorSearch store qe documentId k, ?_, ?_⟩
    · simp [retrieveRelevantChunks, hmode, generateEmbeddingOpenai, hv, hsup]
    · by_cases hempt : (store.document_chunks.filter
          (fun p => p.2.document_id == documentId)).isEmpty
      · simp [inMemoryVectorSearch, hempt]
      · simp only [inMemoryVectorSearch, hempt, Bool.false_eq_true, if_false]
        refine pipeline_pairwise store.document_chunks documentId _
          (fun cid _ => cosineSimilarity qe
            ((alookup store.document_embeddings cid).getD []))
          (retrievalScore env oracle store query) id k hkeys hing ?_ ?_ ?_
        · intro p x hgx
          by_cases hpd : p.2.document_id = documentId
          · simp only [if_pos hpd] at hgx
            cases halook : alookup store.document_embeddings p.1 with
            | none => rw [halook] at hgx; simp at hgx
            | some emb =>
              rw [halook] at hgx
              simp only [Option.map_some', Option.some_inj] at hgx
              refine ⟨?_, hpd⟩
              rw [← hgx]
              simp only [halook, Option.getD_some]
          · simp [hpd] at hgx
        · intro cid c hl
          simp [retrievalScore, hmode, hv, mkRetrieved, Except.toOption]
        · intro a b; simp
  · refine ⟨keywordSearch store query documentId k, ?_, ?_⟩
    · simp only [retrieveRelevantChunks, hmode, Bool.false_eq_true, if_false]
      rfl
    · by_cases hempt : (store.document_chunks.filter
          (fun p => p.2.document_id == documentId)).isEmpty
      · simp [keywordSearch, hempt]
      · simp only [keywordSearch, hempt, Bool.false_eq_true, if_false]
        refine pipeline_pairwise store.document_chunks documentId _
          (fun _ c => keywordScoreOf query c.chunk_text)
          (retrievalScore env oracle store query)
          (fun n : Nat => (n : ℝ)) k hkeys hing ?_ ?_ ?_
        · intro p x hgx
          by_cases hpd : p.2.document_id = documentId
          · simp only [if_pos hpd, Option.some_inj] at hgx
            exact ⟨hgx.symm, hpd⟩
          · simp [hpd] at hgx
        · intro cid c hl
          simp [retrievalScore, hmode, mkRetrieved]
        · intro a b
          exact Nat.cast_lt

/-- Witness for C6: keyword mode, two chunks of document `"d"` scoring
equally on query `"x"`. -/
theorem c6_retrieval_ordering_witness :
    envNone.hasSupabase = false ∧
    (∃ v, oracleHappy.embed "x".toList = .ok v) ∧
    keysNodup pairStore.document_chunks ∧
    pairStore.document_chunks.Pairwise
      (fun p q => p.2.document_id = "d".toList →
        q.2.document_id = "d".toList → p.2.chunk_index < q.2.chunk_index) ∧
    ∃ out, retrieveRelevantChunks envNone oracleHappy pairStore
        "x".toList "d".toList 3 = .ok out ∧
      out.Pairwise (fun a b =>
        retrievalScore envNone oracleHappy pairStore "x".toList b
            < retrievalScore envNone oracleHappy pairStore "x".toList a ∨
        (retrievalScore envNone oracleHappy pairStore "x".toList a
            = retrievalScore envNone oracleHappy pairStore "x".toList b ∧
          a.chunk_index < b.chunk_index)) :=
  ⟨rfl, ⟨[], rfl⟩, by decide, by decide,
    c6_retrieval_ordering envNone oracleHappy pairStore "x".toList "d".toList 3
      rfl ⟨[], rfl⟩ (by decide) (by decide)⟩

/-! ## The fallback-sample branch of answer_question -/

/-- C1 (code evaluation at the failing input): with one chunk stored for
document `"doc1"` (no embedding, so vector-mode retrieval returns the empty
list), `answer_question` does not return the fallback-sample response: the
document lookup compares the dict keys — which are chunk ids of the form
`"doc1_chunk_0"` — against `"doc1"`, never matches, and the call terminates
with the `NoRelevantContent` error even though a chunk for the document is
stored. -/
theorem c1_fallback_lookup_dead :
    sampleStore.document_chunks ≠ [] ∧
    (∃ p ∈ sampleStore.document_chunks, p.2.document_id = "doc1".toList) ∧
    answerQuestion envVector oracleHappy sampleStore
        "q".toList "doc1".toList "gemini".toList []
      = .error "No relevant content found in the document to answer this question.".toList := by
  refine ⟨by decide, by decide, by decide⟩

/-! ## Provider preference order and the fallback loop -/

/-- The fallback loop returns the first successful provider's answer with
`model_used` that provider and `status` success, for any `last_error`
accumulator. -/
theorem tryModels_firstSuccess (gen : PyStr → Option (Except PyStr PyStr))
    (rc : List RetrievedChunk) :
    ∀ ms : List PyStr, ∀ lastError : Option PyStr, ∀ p a : PyStr,
      firstSuccess gen ms = some (p, a) →
      tryModels gen rc ms lastError = .success a p rc := by
  intro ms
  induction ms with
  | nil => intro _ p a h; simp [firstSuccess] at h
  | cons m rest ih =>
    intro lastError p a h
    cases hgen : gen m with
    | none =>
      simp only [firstSuccess, hgen] at h
      simp only [tryModels, hgen]
      exact ih lastError p a h
    | some r =>
      cases r with
      | ok ans =>
        simp only [firstSuccess, hgen, Option.some_inj] at h
        obtain ⟨rfl, rfl⟩ := Prod.mk.injEq .. ▸ h
        simp [tryModels, hgen]
      | error e =>
        simp only [firstSuccess, hgen] at h
        simp only [tryModels, hgen]
        exact ih (some e) p a h

/-- When every listed provider's call raises, the loop returns the
aggregate error carrying the error of the last provider in the list. -/
theorem tryModels_allFail (gen : PyStr → Option (Except PyStr PyStr))
    (rc : List RetrievedChunk) :
    ∀ ms : List PyStr, ∀ lastError : Option PyStr, ∀ pl : PyStr,
      ms.getLast? = some pl →
      (∀ p ∈ ms, ∃ e, gen p = some (.error e)) →
      ∃ el, gen pl = some (.error el) ∧
        tryModels gen rc ms lastError =
          .error ("Error generating answer with all available models. Last error: ".toList ++ el) := by
  intro ms
  induction ms with
  | nil => intro _ pl h _; simp at h
  | cons m rest ih =>
    intro lastError pl hlast hall
    obtain ⟨e, hgen⟩ := hall m (List.mem_cons_self m rest)
    cases rest with
    | nil =>
      simp only [List.getLast?_singleton, Option.some_inj] at hlast
      subst hlast
      exact ⟨e, hgen, by simp [tryModels, hgen, strOfLastError]⟩
    | cons m' rest' =>
      rw [List.getLast?_cons_cons] at hlast
      obtain ⟨el, hel, htail⟩ := ih (some e) pl hlast
        (fun p hp => hall p (List.mem_cons_of_mem m hp))
      exact ⟨el, hel, by simp only [tryModels, hgen]; exact htail⟩

/-- On the context-ready path `answer_question` reduces to the
availability check and the fallback loop. -/
theorem answerQuestion_context_ready (env : Env) (oracle : Oracle)
    (store : Store) (q documentId model : PyStr) (hist : List Msg)
    (rc : List RetrievedChunk)
    (hrc : retrieveRelevantChunks env oracle store q documentId 3 = .ok rc)
    (hne : rc ≠ []) :
    answerQuestion env oracle store q documentId model hist =
      if (buildAvailableModels env model).isEmpty then
        .error "No AI models available for generating responses.".toList
      else
        tryModels (genDispatch env oracle q (contextOf rc) hist) rc
          (buildAvailableModels env model) none := by
  have hne' : rc.isEmpty = false := by
    cases rc with
    | nil => exact absurd rfl hne
    | cons a t => rfl
  unfold answerQuestion answerQuestionBody
  rw [hrc]
  simp only [bind, Except.bind, hne', Bool.false_eq_true, if_false]
  by_cases hm : (buildAvailableModels env model).isEmpty
  · simp [hm, pure, Except.pure]
  · simp [hm, pure, Except.pure]

/-- C3 counterexample: with the Mistral library and credential present
(claimed availability true), the code's preference order differs from the
claimed one — `model_availability["mistral"]` is hard-coded `False` — and on
a concrete context-ready run requesting `"mistral"` with every provider
succeeding, the answer comes from `"gemini"` without Mistral being tried. -/
theorem c3_counterexample :
    claimedAvailability envAllProviders "mistral".toList = true ∧
    buildAvailableModels envAllProviders "mistral".toList
      ≠ claimedPreferenceOrder envAllProviders "mistral".toList ∧
    claimedAvailability envKeyword "mistral".toList = true ∧
    answerQuestion envKeyword oracleHappy sampleStore
        "alpha".toList "doc1".toList "mistral".toList []
      = .success "ans".toList "gemini".toList
          [⟨"doc1".toList, "alpha beta".toList, 0, chunkIdOf "doc1".toList 0⟩] := by
  refine ⟨by decide, by decide, by decide, by decide⟩

/-- C3 amended: the preference order is the requested model (if the
availability dict marks it `True`) followed by the remaining providers of
the fixed order gemini, openai, claude, mistral, filtered by the dict —
which marks mistral unavailable unconditionally; on the context-ready path
the providers are invoked in this order, the first successful call ends the
loop, and the response records that provider as `model_used` with status
success. -/
theorem c3_amended_provider_order (env : Env) (oracle : Oracle)
    (store : Store) (q documentId model : PyStr) (hist : List Msg)
    (rc : List RetrievedChunk)
    (hrc : retrieveRelevantChunks env oracle store q documentId 3 = .ok rc)
    (hne : rc ≠ []) :
    buildAvailableModels env model
      = (if (modelAvailability env model).getD false then [model] else []) ++
          fallbackOrder.filter
            (fun fm => !(fm == model) && (modelAvailability env fm).getD false) ∧
    modelAvailability env "mistral".toList = some false ∧
    (∀ p a, firstSuccess (genDispatch env oracle q (contextOf rc) hist)
        (buildAvailableModels env model) = some (p, a) →
      answerQuestion env oracle store q documentId model hist
        = .success a p rc) := by
  refine ⟨rfl, rfl, ?_⟩
  intro p a hfs
  rw [answerQuestion_context_ready env oracle store q documentId model hist rc hrc hne]
  have hms : (buildAvailableModels env model).isEmpty = false := by
    cases hcase : buildAvailableModels env model with
    | nil => rw [hcase] at hfs; simp [firstSuccess] at hfs
    | cons x t => rfl
  rw [hms]
  simp only [Bool.false_eq_true, if_false]
  exact tryModels_firstSuccess _ rc _ none p a hfs

/-- Witness for the amended C3: requested model `"mistral"` with Gemini the
first available provider; the loop answers with Gemini. -/
theorem c3_amended_provider_order_witness :
    retrieveRelevantChunks envKeyword oracleHappy sampleStore
        "alpha".toList "doc1".toList 3
      = .ok [⟨"doc1".toList, "alpha beta".toList, 0, chunkIdOf "doc1".toList 0⟩] ∧
    ([⟨"doc1".toList, "alpha beta".toList, 0, chunkIdOf "doc1".toList 0⟩]
      : List RetrievedChunk) ≠ [] ∧
    (buildAvailableModels envKeyword "mistral".toList
      = (if (modelAvailability envKeyword "mistral".toList).getD false
          then ["mistral".toList] else []) ++
          fallbackOrder.filter (fun fm => !(fm == "mistral".toList)
            && (modelAvailability envKeyword fm).getD false) ∧
    modelAvailability envKeyword "mistral".toList = some false ∧
    (∀ p a, firstSuccess (genDispatch envKeyword oracleHappy "alpha".toList
        (contextOf [⟨"doc1".toList, "alpha beta".toList, 0, chunkIdOf "doc1".toList 0⟩]) [])
        (buildAvailableModels envKeyword "mistral".toList) = some (p, a) →
      answerQuestion envKeyword oracleHappy sampleStore
          "alpha".toList "doc1".toList "mistral".toList []
        = .success a p
            [⟨"doc1".toList, "alpha beta".toList, 0, chunkIdOf "doc1".toList 0⟩])) :=
  ⟨by rfl, by decide,
    c3_amended_provider_order envKeyword oracleHappy sampleStore
      "alpha".toList "doc1".toList "mistral".toList []
      [⟨"doc1".toList, "alpha beta".toList, 0, chunkIdOf "doc1".toList 0⟩]
      (by rfl) (by decide)⟩

/-- C4: on the context-ready path, if the availability list is empty the
call returns the (non-empty) no-models error dict; if every listed
provider's call raises, it returns the aggregate error dict whose non-empty
description embeds the error of the last provider tried. -/
theorem c4_all_providers_failed (env : Env) (oracle : Oracle) (store : Store)
    (q documentId model : PyStr) (hist : List Msg) (rc : List RetrievedChunk)
    (hrc : retrieveRelevantChunks env oracle store q documentId 3 = .ok rc)
    (hne : rc ≠ []) :
    (buildAvailableModels env model = [] →
      answerQuestion env oracle store q documentId model hist
        = .error "No AI models available for generating responses.".toList ∧
      ("No AI models available for generating responses.".toList : PyStr) ≠ []) ∧
    (∀ pl, (buildAvailableModels env model).getLast? = some pl →
      (∀ p ∈ buildAvailableModels env model, ∃ e,
        genDispatch env oracle q (contextOf rc) hist p = some (.error e)) →
      ∃ el, genDispatch env oracle q (contextOf rc) hist pl = some (.error el) ∧
        answerQuestion env oracle store q documentId model hist
          = .error ("Error generating answer with all available models. Last error: ".toList ++ el) ∧
        ("Error generating answer with all available models. Last error: ".toList ++ el)
          ≠ ([] : PyStr)) := by
  rw [answerQuestion_context_ready env oracle store q documentId model hist rc hrc hne]
  constructor
  · intro hnil
    rw [hnil]
    exact ⟨rfl, by decide⟩
  · intro pl hlast hall
    have hms : (buildAvailableModels env model).isEmpty = false := by
      cases hcase : buildAvailableModels env model with
      | nil => rw [hcase] at hlast; simp at hlast
      | cons x t => rfl
    rw [hms]
    simp only [Bool.false_eq_true, if_false]
    obtain ⟨el, hel, hloop⟩ :=
      tryModels_allFail (genDispatch env oracle q (contextOf rc) hist) rc
        (buildAvailableModels env model) none pl hlast hall
    exact ⟨el, hel, hloop, by simp⟩

/-- Witness for C4: with only Gemini available and its call raising
`"boom"`, the aggregate error embeds the last failure; with no provider
available, the no-models error dict is returned. -/
theorem c4_all_providers_failed_witness :
    retrieveRelevantChunks envGeminiOnly oracleGenFail sampleStore
        "alpha".toList "doc1".toList 3
      = .ok [⟨"doc1".toList, "alpha beta".toList, 0, chunkIdOf "doc1".toList 0⟩] ∧
    (buildAvailableModels envGeminiOnly "gemini".toList).getLast?
      = some "gemini".toList ∧
    (∃ el, genDispatch envGeminiOnly oracleGenFail "alpha".toList
        (contextOf [⟨"doc1".toList, "alpha beta".toList, 0, chunkIdOf "doc1".toList 0⟩])
        [] "gemini".toList = some (.error el) ∧
      answerQuestion envGeminiOnly oracleGenFail sampleStore
          "alpha".toList "doc1".toList "gemini".toList []
        = .error ("Error generating answer with all available models. Last error: ".toList ++ el) ∧
      ("Error generating answer with all available models. Last error: ".toList ++ el)
        ≠ ([] : PyStr)) ∧
    (answerQuestion envNone oracleGenFail sampleStore
        "alpha".toList "doc1".toList "gemini".toList []
      = .error "No AI models available for generating responses.".toList ∧
      ("No AI models available for generating responses.".toList : PyStr) ≠ []) :=
  ⟨by rfl, by decide,
    (c4_all_providers_failed envGeminiOnly oracleGenFail sampleStore
      "alpha".toList "doc1".toList "gemini".toList []
      [⟨"doc1".toList, "alpha beta".toList, 0, chunkIdOf "doc1".toList 0⟩]
      (by rfl) (by decide)).2 "gemini".toList (by decide)
      (by
        intro p hp
        rw [show buildAvailableModels envGeminiOnly ("gemini".toList)
          = ["gemini".toList] from by decide] at hp
        rcases List.mem_singleton.mp hp with rfl
        exact ⟨"Failed to generate response with Gemini: ".toList ++ "boom".toList,
          by rfl⟩),
    (c4_all_providers_failed envNone oracleGenFail sampleStore
      "alpha".toList "doc1".toList "gemini".toList []
      [⟨"doc1".toList, "alpha beta".toList, 0, chunkIdOf "doc1".toList 0⟩]
      (by rfl) (by decide)).1 (by decide)⟩

/-! ## Chunk-id injectivity and dict upsert laws -/

theorem digitChar_toNat (d : Nat) (hd : d < 10) : (digitChar d).toNat = 48 + d := by
  interval_cases d <;> rfl

theorem natToCharsAux_eq_digits :
    ∀ fuel n : Nat, n ≤ fuel →
      natToCharsAux fuel n = (Nat.digits 10 n).map digitChar := by
  intro fuel
  induction fuel with
  | zero =>
    intro n hn
    interval_cases n
    simp [natToCharsAux]
  | succ f ih =>
    intro n hn
    cases n with
    | zero => simp [natToCharsAux]
    | succ m =>
      rw [natToCharsAux,
        Nat.digits_def' (by norm_num : (1 : Nat) < 10) (Nat.succ_pos m),
        List.map_cons]
      congr 1
      refine ih ((m + 1) / 10) ?_
      have := Nat.div_lt_self (Nat.succ_pos m) (by norm_num : (1 : Nat) < 10)
      omega

theorem charsToNat_natToChars (n : Nat) : charsToNat (natToChars n) = n := by
  by_cases h0 : n = 0
  · subst h0; decide
  · rw [natToChars, if_neg h0, natToCharsAux_eq_digits n n le_rfl]
    unfold charsToNat
    rw [List.map_reverse, List.reverse_reverse, List.map_map]
    have hmap : (Nat.digits 10 n).map ((fun c => c.toNat - 48) ∘ digitChar)
        = Nat.digits 10 n := by
      refine (List.map_congr_left ?_).trans (List.map_id _)
      intro d hd
      have hlt : d < 10 := Nat.digits_lt_base (by norm_num) hd
      simp [Function.comp, digitChar_toNat d hlt]
    rw [hmap, Nat.ofDigits_digits]

theorem natToChars_injective : Function.Injective natToChars :=
  Function.LeftInverse.injective charsToNat_natToChars

theorem chunkIdOf_inj (docId : PyStr) (i j : Nat)
    (h : chunkIdOf docId i = chunkIdOf docId j) : i = j := by
  unfold chunkIdOf at h
  exact natToChars_injective (List.append_cancel_left h)

theorem alookup_mem {β : Type} :
    ∀ (l : List (PyStr × β)) (k : PyStr) (v : β),
      alookup l k = some v → (k, v) ∈ l := by
  intro l k v
  induction l with
  | nil => intro h; simp [alookup] at h
  | cons p ps ih =>
    intro h
    by_cases hpk : p.1 = k
    · simp only [alookup, if_pos hpk, Option.some_inj] at h
      have hp : p = (k, v) := by
        obtain ⟨p1, p2⟩ := p
        simp only at hpk h
        rw [hpk, h]
      exact List.mem_cons.mpr (Or.inl hp.symm)
    · simp only [alookup, if_neg hpk] at h
      exact List.mem_cons_of_mem p (ih h)

theorem alookup_upsert_self {β : Type} :
    ∀ (l : List (PyStr × β)) (k : PyStr) (v : β),
      alookup (upsert l k v) k = some v := by
  intro l k v
  induction l with
  | nil => simp [upsert, alookup]
  | cons p ps ih =>
    by_cases hpk : p.1 = k
    · have hany : (p :: ps).any (fun q => q.1 == k) = true := by
        simp [List.any_cons, hpk]
      simp [upsert, hany, hpk, alookup]
    · by_cases hps : ps.any (fun q => q.1 == k) = true
      · have hany : (p :: ps).any (fun q => q.1 == k) = true := by
          simp [List.any_cons, hps]
        have hexp : upsert (p :: ps) k v = p :: upsert ps k v := by
          simp [upsert, hany, hps, hpk]
        rw [hexp]
        simp only [alookup, if_neg hpk]
        exact ih
      · have hany : (p :: ps).any (fun q => q.1 == k) = false := by
          simp only [List.any_cons, Bool.or_eq_false_iff]
          exact ⟨beq_eq_false_iff_ne.mpr hpk, Bool.eq_false_iff.mpr hps⟩
        have hexp : upsert (p :: ps) k v = p :: (ps ++ [(k, v)]) := by
          simp only [upsert, hany, Bool.false_eq_true, if_false, List.cons_append]
        have hexp' : upsert ps k v = ps ++ [(k, v)] := by
          simp [upsert, hps]
        rw [hexp]
        simp only [alookup, if_neg hpk]
        rw [← hexp']
        exact ih


theorem alookup_map_replace {β : Type} (k : PyStr) (v : β) (q : PyStr)
    (hqk : q ≠ k) :
    ∀ l : List (PyStr × β),
      alookup (l.map (fun r => if r.1 = k then (k, v) else r)) q = alookup l q := by
  intro l
  induction l with
  | nil => rfl
  | cons p ps ih =>
    by_cases hpk : p.1 = k
    · simp only [List.map_cons, if_pos hpk, alookup]
      rw [if_neg (fun h => hqk h.symm), if_neg (by rw [hpk]; exact fun h => hqk h.symm)]
      exact ih
    · simp only [List.map_cons, if_neg hpk, alookup]
      by_cases hpq : p.1 = q
      · simp [hpq]
      · simp only [if_neg hpq]
        exact ih

theorem alookup_append_single {β : Type} (k : PyStr) (v : β) (q : PyStr)
    (hqk : q ≠ k) :
    ∀ l : List (PyStr × β), alookup (l ++ [(k, v)]) q = alookup l q := by
  intro l
  induction l with
  | nil =>
    have hkq : ¬ (k = q) := fun h => hqk h.symm
    simp [alookup, hkq]
  | cons p ps ih =>
    simp only [List.cons_append, alookup]
    by_cases hpq : p.1 = q
    · simp [hpq]
    · simp only [if_neg hpq]
      exact ih

theorem alookup_upsert_ne {β : Type} (l : List (PyStr × β)) (k : PyStr)
    (v : β) (q : PyStr) (hqk : q ≠ k) :
    alookup (upsert l k v) q = alookup l q := by
  unfold upsert
  by_cases hc : l.any (fun p => p.1 == k) = true
  · rw [if_pos hc]
    exact alookup_map_replace k v q hqk l
  · rw [if_neg hc]
    exact alookup_append_single k v q hqk l

theorem upsert_eq_of_alookup {β : Type} :
    ∀ l : List (PyStr × β), keysNodup l → ∀ k : PyStr, ∀ v : β,
      alookup l k = some v → upsert l k v = l := by
  intro l
  induction l with
  | nil => intro _ k v h; simp [alookup] at h
  | cons p ps ih =>
    intro hnd k v h
    rcases List.nodup_cons.mp hnd with ⟨hnotin, hnd'⟩
    by_cases hpk : p.1 = k
    · simp only [alookup, if_pos hpk, Option.some_inj] at h
      have hany : (p :: ps).any (fun q => q.1 == k) = true := by
        simp [List.any_cons, hpk]
      have hmap : ps.map (fun r => if r.1 = k then (k, v) else r) = ps := by
        refine (List.map_congr_left ?_).trans (List.map_id _)
        intro r hr
        have hrk : r.1 ≠ k := by
          intro hr1
          exact hnotin (hpk ▸ hr1 ▸ List.mem_map_of_mem Prod.fst hr)
        simp [hrk]
      simp only [upsert, hany, if_pos, List.map_cons, if_pos hpk, hmap]
      rw [← hpk, ← h]
    · simp only [alookup, if_neg hpk] at h
      have hmem : (k, v) ∈ ps := alookup_mem ps k v h
      have hany' : ps.any (fun q => q.1 == k) = true :=
        List.any_eq_true.mpr ⟨(k, v), hmem, by simp⟩
      have hany : (p :: ps).any (fun q => q.1 == k) = true := by
        simp [List.any_cons, hany']
      have hups : upsert ps k v = ps := ih hnd' k v h
      simp only [upsert, hany, if_pos, List.map_cons, if_neg hpk]
      simp only [upsert, hany', if_pos] at hups
      rw [hups]

theorem keysNodup_upsert {β : Type} (l : List (PyStr × β)) (k : PyStr)
    (v : β) (hnd : keysNodup l) : keysNodup (upsert l k v) := by
  unfold upsert
  by_cases hc : l.any (fun p => p.1 == k) = true
  · rw [if_pos hc]
    have hkeys : (l.map (fun r => if r.1 = k then (k, v) else r)).map Prod.fst
        = l.map Prod.fst := by
      rw [List.map_map]
      refine List.map_congr_left ?_
      intro r _
      by_cases hrk : r.1 = k
      · simp [hrk]
      · simp [hrk]
    unfold keysNodup
    rw [hkeys]
    exact hnd
  · rw [if_neg hc]
    unfold keysNodup
    rw [List.map_append]
    refine List.Nodup.append hnd (by simp) ?_
    intro a ha hb
    simp only [List.map_cons, List.map_nil, List.mem_singleton] at hb
    subst hb
    obtain ⟨r, hr, hr1⟩ := List.mem_map.mp ha
    exact hc (List.any_eq_true.mpr ⟨r, hr, by simp [hr1]⟩)

/-! ## Ingestion: state facts and idempotence -/

theorem ingestEmbedLoop_facts (env : Env) (oracle : Oracle) (docId : PyStr)
    (hsup : env.hasSupabase = false) :
    ∀ (cs : List PyStr) (i : Nat) (s : Store) (acc ids : List PyStr) (s' : Store),
      ingestEmbedLoop env oracle docId cs i s acc = (.ok ids, s') →
      keysNodup s.document_chunks → keysNodup s.document_embeddings →
      (keysNodup s'.document_chunks ∧ keysNodup s'.document_embeddings) ∧
      (∀ q : PyStr, (∀ k, k < cs.length → q ≠ chunkIdOf docId (i + k)) →
        alookup s'.document_chunks q = alookup s.document_chunks q ∧
        alookup s'.document_embeddings q = alookup s.document_embeddings q) ∧
      (∀ k, (hk : k < cs.length) →
        alookup s'.document_chunks (chunkIdOf docId (i + k))
          = some ⟨docId, cs.get ⟨k, hk⟩, i + k⟩ ∧
        ∃ emb, generateEmbeddingOpenai env oracle (cs.get ⟨k, hk⟩) = .ok emb ∧
          alookup s'.document_embeddings (chunkIdOf docId (i + k)) = some emb) := by
  intro cs
  induction cs with
  | nil =>
    intro i s acc ids s' hrun hnd hnde
    simp only [ingestEmbedLoop, Prod.mk.injEq] at hrun
    rw [← hrun.2]
    exact ⟨⟨hnd, hnde⟩, fun q _ => ⟨rfl, rfl⟩, fun k hk => absurd hk (by simp)⟩
  | cons c cs' ih =>
    intro i s acc ids s' hrun hnd hnde
    rw [ingestEmbedLoop] at hrun
    cases hemb : generateEmbeddingOpenai env oracle c with
    | error e => rw [hemb] at hrun; simp at hrun
    | ok emb =>
      rw [hemb] at hrun
      simp only [hsup, Bool.false_eq_true, if_false] at hrun
      set smid : Store :=
        { document_chunks := upsert s.document_chunks (chunkIdOf docId i)
            { document_id := docId, chunk_text := c, chunk_index := i },
          document_embeddings :=
            upsert s.document_embeddings (chunkIdOf docId i) emb } with hsmid
      have hndm : keysNodup smid.document_chunks :=
        keysNodup_upsert _ _ _ hnd
      have hndem : keysNodup smid.document_embeddings :=
        keysNodup_upsert _ _ _ hnde
      obtain ⟨hnd', hpres, hfacts⟩ :=
        ih (i + 1) smid (chunkIdOf docId i :: acc) ids s' hrun hndm hndem
      refine ⟨hnd', ?_, ?_⟩
      · intro q hq
        have hq0 : q ≠ chunkIdOf docId i := by
          have := hq 0 (by simp)
          simpa using this
        have hq' : ∀ k, k < cs'.length → q ≠ chunkIdOf docId (i + 1 + k) := by
          intro k hk
          have := hq (k + 1) (by simpa using Nat.succ_lt_succ hk)
          convert this using 2
          omega
        obtain ⟨h1, h2⟩ := hpres q hq'
        rw [h1, h2, hsmid]
        constructor
        · exact alookup_upsert_ne _ _ _ _ hq0
        · exact alookup_upsert_ne _ _ _ _ hq0
      · intro k hk
        cases k with
        | zero =>
          have hne : ∀ k', k' < cs'.length →
              chunkIdOf docId i ≠ chunkIdOf docId (i + 1 + k') := by
            intro k' _ h
            have := chunkIdOf_inj docId i (i + 1 + k') h
            omega
          obtain ⟨h1, h2⟩ := hpres (chunkIdOf docId i) hne
          simp only [Nat.add_zero]
          refine ⟨?_, emb, hemb, ?_⟩
          · rw [h1, hsmid]
            simpa using alookup_upsert_self s.document_chunks _ _
          · rw [h2, hsmid]
            exact alookup_upsert_self s.document_embeddings _ _
        | succ k' =>
          have hk' : k' < cs'.length := by simpa using Nat.lt_of_succ_lt_succ hk
          obtain ⟨h1, h2⟩ := hfacts k' hk'
          have harith : i + (k' + 1) = i + 1 + k' := by omega
          have hget : (c :: cs').get ⟨k' + 1, hk⟩ = cs'.get ⟨k', hk'⟩ := rfl
          rw [harith, hget]
          exact ⟨h1, h2⟩

theorem ingestEmbedLoop_idem (env : Env) (oracle : Oracle) (docId : PyStr)
    (hsup : env.hasSupabase = false) :
    ∀ (cs : List PyStr) (i : Nat) (s1 : Store) (acc : List PyStr),
      keysNodup s1.document_chunks → keysNodup s1.document_embeddings →
      (∀ k, (hk : k < cs.length) →
        alookup s1.document_chunks (chunkIdOf docId (i + k))
          = some ⟨docId, cs.get ⟨k, hk⟩, i + k⟩ ∧
        ∃ emb, generateEmbeddingOpenai env oracle (cs.get ⟨k, hk⟩) = .ok emb ∧
          alookup s1.document_embeddings (chunkIdOf docId (i + k)) = some emb) →
      ∃ ids, ingestEmbedLoop env oracle docId cs i s1 acc = (.ok ids, s1) := by
  intro cs
  induction cs with
  | nil =>
    intro i s1 acc _ _ _
    exact ⟨acc.reverse, rfl⟩
  | cons c cs' ih =>
    intro i s1 acc hnd hnde hfacts
    obtain ⟨h1, emb, hemb, h2⟩ := hfacts 0 (by simp)
    simp only [Nat.add_zero] at h1 h2
    have hget0 : (c :: cs').get ⟨0, by simp⟩ = c := rfl
    rw [hget0] at hemb
    have hch : upsert s1.document_chunks (chunkIdOf docId i)
        { document_id := docId, chunk_text := c, chunk_index := i }
        = s1.document_chunks :=
      upsert_eq_of_alookup _ hnd _ _ (by simpa using h1)
    have hemb' : upsert s1.document_embeddings (chunkIdOf docId i) emb
        = s1.document_embeddings :=
      upsert_eq_of_alookup _ hnde _ _ h2
    rw [ingestEmbedLoop, hemb]
    simp only [hsup, Bool.false_eq_true, if_false, hch, hemb']
    refine ih (i + 1) s1 (chunkIdOf docId i :: acc) hnd hnde ?_
    intro k hk
    obtain ⟨g1, g2⟩ := hfacts (k + 1) (by simpa using Nat.succ_lt_succ hk)
    have harith : i + (k + 1) = i + 1 + k := by omega
    rw [harith] at g1 g2
    exact ⟨g1, g2⟩

theorem ingestPlainLoop_facts (docId : PyStr) :
    ∀ (cs : List PyStr) (i : Nat) (s : Store) (acc : List PyStr),
      keysNodup s.document_chunks →
      keysNodup (ingestPlainLoop docId cs i s acc).2.document_chunks ∧
      (ingestPlainLoop docId cs i s acc).2.document_embeddings
        = s.document_embeddings ∧
      (∀ q : PyStr, (∀ k, k < cs.length → q ≠ chunkIdOf docId (i + k)) →
        alookup (ingestPlainLoop docId cs i s acc).2.document_chunks q
          = alookup s.document_chunks q) ∧
      (∀ k, (hk : k < cs.length) →
        alookup (ingestPlainLoop docId cs i s acc).2.document_chunks
            (chunkIdOf docId (i + k))
          = some ⟨docId, cs.get ⟨k, hk⟩, i + k⟩) := by
  intro cs
  induction cs with
  | nil =>
    intro i s acc hnd
    exact ⟨hnd, rfl, fun q _ => rfl, fun k hk => absurd hk (by simp)⟩
  | cons c cs' ih =>
    intro i s acc hnd
    rw [ingestPlainLoop]
    set smid : Store :=
      { document_chunks := upsert s.document_chunks (chunkIdOf docId i)
          { document_id := docId, chunk_text := c, chunk_index := i },
        document_embeddings := s.document_embeddings } with hsmid
    have hndm : keysNodup smid.document_chunks := keysNodup_upsert _ _ _ hnd
    obtain ⟨hnd', hembeq, hpres, hfacts⟩ :=
      ih (i + 1) smid (chunkIdOf docId i :: acc) hndm
    refine ⟨hnd', by rw [hembeq], ?_, ?_⟩
    · intro q hq
      have hq0 : q ≠ chunkIdOf docId i := by
        have := hq 0 (by simp)
        simpa using this
      have hq' : ∀ k, k < cs'.length → q ≠ chunkIdOf docId (i + 1 + k) := by
        intro k hk
        have := hq (k + 1) (by simpa using Nat.succ_lt_succ hk)
        convert this using 2
        omega
      rw [hpres q hq', hsmid]
      exact alookup_upsert_ne _ _ _ _ hq0
    · intro k hk
      cases k with
      | zero =>
        have hne : ∀ k', k' < cs'.length →
            chunkIdOf docId i ≠ chunkIdOf docId (i + 1 + k') := by
          intro k' _ h
          have := chunkIdOf_inj docId i (i + 1 + k') h
          omega
        simp only [Nat.add_zero]
        rw [hpres (chunkIdOf docId i) hne, hsmid]
        simpa using alookup_upsert_self s.document_chunks _ _
      | succ k' =>
        have hk' : k' < cs'.length := by simpa using Nat.lt_of_succ_lt_succ hk
        have harith : i + (k' + 1) = i + 1 + k' := by omega
        have hget : (c :: cs').get ⟨k' + 1, hk⟩ = cs'.get ⟨k', hk'⟩ := rfl
        rw [harith, hget]
        exact hfacts k' hk'

theorem ingestPlainLoop_idem (docId : PyStr) :
    ∀ (cs : List PyStr) (i : Nat) (s1 : Store) (acc : List PyStr),
      keysNodup s1.document_chunks →
      (∀ k, (hk : k < cs.length) →
        alookup s1.document_chunks (chunkIdOf docId (i + k))
          = some ⟨docId, cs.get ⟨k, hk⟩, i + k⟩) →
      (ingestPlainLoop docId cs i s1 acc).2 = s1 := by
  intro cs
  induction cs with
  | nil => intro i s1 acc _ _; rfl
  | cons c cs' ih =>
    intro i s1 acc hnd hfacts
    have h1 := hfacts 0 (by simp)
    simp only [Nat.add_zero] at h1
    have hch : upsert s1.document_chunks (chunkIdOf docId i)
        { document_id := docId, chunk_text := c, chunk_index := i }
        = s1.document_chunks :=
      upsert_eq_of_alookup _ hnd _ _ (by simpa using h1)
    rw [ingestPlainLoop]
    simp only [hch]
    refine ih (i + 1) s1 (chunkIdOf docId i :: acc) hnd ?_
    intro k hk
    have g1 := hfacts (k + 1) (by simpa using Nat.succ_lt_succ hk)
    have harith : i + (k + 1) = i + 1 + k := by omega
    rw [harith] at g1
    exact g1

/-- C9: in in-memory mode (no Supabase), re-running a successful
`process_document` with the same arguments leaves the chunk store and the
embedding store exactly as after the first run: every write is an upsert
keyed by `f"{document_id}_chunk_{i}"`, re-writing the identical value. -/
theorem c9_reingestion_idempotent (env : Env) (oracle : Oracle) (s0 : Store)
    (docId text : PyStr) (size overlap : Nat) (n : Nat) (ids : List PyStr)
    (w : Option PyStr) (s1 : Store)
    (hsup : env.hasSupabase = false)
    (hnd : keysNodup s0.document_chunks)
    (hnde : keysNodup s0.document_embeddings)
    (hrun : processDocument env oracle s0 docId text size overlap
      = some (.success docId n ids w, s1)) :
    ∃ r2, processDocument env oracle s1 docId text size overlap
      = some (r2, s1) := by
  unfold processDocument at hrun ⊢
  cases hchunk : chunkDocument text size overlap with
  | none => rw [hchunk] at hrun; simp at hrun
  | some chunks =>
    rw [hchunk] at hrun
    by_cases hmode : (env.hasOpenai && env.openaiKey) = true
    · simp only [hmode, if_pos] at hrun ⊢
      cases hloop : ingestEmbedLoop env oracle docId chunks 0 s0 [] with
      | mk res s' =>
        rw [hloop] at hrun
        cases res with
        | error e => simp at hrun
        | ok ids0 =>
          simp only [Option.some_inj, Prod.mk.injEq, PDResult.success.injEq] at hrun
          have hs1 : s' = s1 := hrun.2
          subst hs1
          obtain ⟨_, _, hfacts⟩ :=
            ingestEmbedLoop_facts env oracle docId hsup chunks 0 s0 [] ids0 s'
              hloop hnd hnde
          obtain ⟨hnd1, hnde1⟩ :=
            (ingestEmbedLoop_facts env oracle docId hsup chunks 0 s0 [] ids0 s'
              hloop hnd hnde).1
          obtain ⟨ids2, hidem⟩ :=
            ingestEmbedLoop_idem env oracle docId hsup chunks 0 s' [] hnd1 hnde1
              hfacts
          rw [hidem]
          exact ⟨.success docId chunks.length ids2 none, rfl⟩
    · simp only [hmode, Bool.false_eq_true, if_false] at hrun ⊢
      simp only [Option.some_inj, Prod.mk.injEq, PDResult.success.injEq] at hrun
      have hs1 : (ingestPlainLoop docId chunks 0 s0 []).2 = s1 := hrun.2
      obtain ⟨hnd1, _, _, hfacts⟩ := ingestPlainLoop_facts docId chunks 0 s0 [] hnd
      rw [hs1] at hnd1 hfacts
      have hidem := ingestPlainLoop_idem docId chunks 0 s1 [] hnd1 hfacts
      rw [hidem]
      exact ⟨.success docId chunks.length (ingestPlainLoop docId chunks 0 s1 []).1
        (some "Embeddings not generated due to missing OpenAI API key".toList), rfl⟩

/-- Witness for C9: a concrete successful ingestion, re-run on its own
output state. -/
theorem c9_reingestion_idempotent_witness :
    envNone.hasSupabase = false ∧
    keysNodup emptyStore.document_chunks ∧
    keysNodup emptyStore.document_embeddings ∧
    processDocument envNone oracleHappy emptyStore "doc1".toList
        "alpha beta gamma".toList 2 1
      = some (.success "doc1".toList 3
          [chunkIdOf "doc1".toList 0, chunkIdOf "doc1".toList 1,
            chunkIdOf "doc1".toList 2]
          (some "Embeddings not generated due to missing OpenAI API key".toList),
        ingestedStore) ∧
    ∃ r2, processDocument envNone oracleHappy ingestedStore "doc1".toList
        "alpha beta gamma".toList 2 1 = some (r2, ingestedStore) :=
  ⟨rfl, by decide, by decide, by rfl,
    c9_reingestion_idempotent envNone oracleHappy emptyStore "doc1".toList
      "alpha beta gamma".toList 2 1 3
      [chunkIdOf "doc1".toList 0, chunkIdOf "doc1".toList 1,
        chunkIdOf "doc1".toList 2]
      (some "Embeddings not generated due to missing OpenAI API key".toList)
      ingestedStore rfl (by decide) (by decide) (by rfl)⟩

/-! ## Error propagation and error-message shape -/

theorem append_ne_nil_left {α : Type} (l l' : List α) (h : l ≠ []) :
    l ++ l' ≠ [] := by
  cases l with
  | nil => exact absurd rfl h
  | cons a t => simp

theorem generateEmbeddingOpenai_error_ne (env : Env) (oracle : Oracle)
    (t e : PyStr) (hO : OracleMsgsNonempty oracle)
    (h : generateEmbeddingOpenai env oracle t = .error e) : e ≠ [] := by
  unfold generateEmbeddingOpenai at h
  split at h
  · simp only [Except.error.injEq] at h
    subst h
    decide
  · exact hO.1 t e h

theorem generateAnswer_error_ne (env : Env) (oracle : Oracle)
    (q c : PyStr) (hist : List Msg) (e : PyStr)
    (hO : OracleMsgsNonempty oracle) :
    (generateAnswerGemini env oracle q c hist = .error e → e ≠ []) ∧
    (generateAnswerOpenai env oracle q c hist = .error e → e ≠ []) ∧
    (generateAnswerClaude env oracle q c hist = .error e → e ≠ []) ∧
    (generateAnswerMistral env oracle q c hist = .error e → e ≠ []) := by
  refine ⟨?_, ?_, ?_, ?_⟩
  · intro h
    unfold generateAnswerGemini at h
    split at h
    · simp only [Except.error.injEq] at h; subst h; decide
    · split at h
      · simp at h
      · simp only [Except.error.injEq] at h
        subst h
        exact append_ne_nil_left _ _ (by decide)
  · intro h
    unfold generateAnswerOpenai at h
    split at h
    · simp only [Except.error.injEq] at h; subst h; decide
    · exact hO.2.2.2.2.1 q c hist e h
  · intro h
    unfold generateAnswerClaude at h
    split at h
    · simp only [Except.error.injEq] at h; subst h; decide
    · split at h
      · simp at h
      · simp only [Except.error.injEq] at h
        subst h
        exact append_ne_nil_left _ _ (by decide)
  · intro h
    unfold generateAnswerMistral at h
    split at h
    · simp only [Except.error.injEq] at h; subst h; decide
    · split at h
      · simp at h
      · simp only [Except.error.injEq] at h
        subst h
        exact append_ne_nil_left _ _ (by decide)

theorem tryModels_error_ne (gen : PyStr → Option (Except PyStr PyStr))
    (rc : List RetrievedChunk) :
    ∀ (ms : List PyStr) (lastError : Option PyStr) (m : PyStr),
      tryModels gen rc ms lastError = .error m → m ≠ [] := by
  intro ms
  induction ms with
  | nil =>
    intro lastError m h
    simp only [tryModels, AQResult.error.injEq] at h
    subst h
    exact append_ne_nil_left _ _ (by decide)
  | cons cur rest ih =>
    intro lastError m h
    rw [tryModels] at h
    cases hgen : gen cur with
    | none => rw [hgen] at h; exact ih lastError m h
    | some r =>
      cases r with
      | ok a => rw [hgen] at h; simp at h
      | error e => rw [hgen] at h; exact ih (some e) m h

theorem fallbackGenerate_error_ne (env : Env) (oracle : Oracle)
    (q model : PyStr) (hist : List Msg) (dt m : PyStr)
    (h : fallbackGenerate env oracle q model hist dt = .error m) : m ≠ [] := by
  unfold fallbackGenerate at h
  iterate 8 (all_goals (try split at h))
  all_goals
    first
    | (subst h; decide)
    | (revert h
       dsimp only
       split
       · intro h; simp at h
       · intro h
         simp only [AQResult.error.injEq] at h
         subst h
         exact append_ne_nil_left _ _ (by decide))
    | (simp only [AQResult.error.injEq] at h; subst h; decide)

theorem retrieveRelevantChunks_error (env : Env) (oracle : Oracle)
    (store : Store) (query documentId : PyStr) (k : Nat) (e : PyStr)
    (h : retrieveRelevantChunks env oracle store query documentId k = .error e) :
    generateEmbeddingOpenai env oracle query = .error e := by
  unfold retrieveRelevantChunks at h
  by_cases hmode : (env.hasOpenai && env.openaiKey) = true
  · simp only [hmode, if_pos] at h
    cases hemb : generateEmbeddingOpenai env oracle query with
    | error e0 =>
      rw [hemb] at h
      simp only [bind, Except.bind, Except.error.injEq] at h
      rw [h]
    | ok qe =>
      rw [hemb] at h
      simp only [bind, Except.bind] at h
      by_cases hsup : env.hasSupabase = true
      · simp only [hsup, if_pos] at h
        cases hmc : oracle.matchChunks qe documentId k with
        | ok data =>
          rw [hmc] at h
          by_cases hd : data.isEmpty = true <;> simp [hd, pure, Except.pure] at h
        | error e1 =>
          rw [hmc] at h
          simp [pure, Except.pure] at h
      · simp only [Bool.not_eq_true] at hsup
        simp [hsup, pure, Except.pure] at h
  · simp only [Bool.not_eq_true] at hmode
    simp [hmode, pure, Except.pure] at h

theorem ingestEmbedLoop_error_ne (env : Env) (oracle : Oracle) (docId : PyStr)
    (hO : OracleMsgsNonempty oracle) :
    ∀ (cs : List PyStr) (i : Nat) (s : Store) (acc : List PyStr) (e : PyStr)
      (s' : Store),
      ingestEmbedLoop env oracle docId cs i s acc = (.error e, s') → e ≠ [] := by
  intro cs
  induction cs with
  | nil => intro i s acc e s' h; simp [ingestEmbedLoop] at h
  | cons c cs' ih =>
    intro i s acc e s' h
    rw [ingestEmbedLoop] at h
    cases hemb : generateEmbeddingOpenai env oracle c with
    | error e0 =>
      rw [hemb] at h
      simp only [Prod.mk.injEq, Except.error.injEq] at h
      rw [← h.1]
      exact generateEmbeddingOpenai_error_ne env oracle c e0 hO hemb
    | ok emb =>
      rw [hemb] at h
      by_cases hsup : env.hasSupabase = true
      · simp only [hsup, if_pos] at h
        cases hst : oracle.storeChunk (chunkIdOf docId i) docId c emb with
        | error e1 =>
          rw [hst] at h
          simp only [Prod.mk.injEq, Except.error.injEq] at h
          rw [← h.1]
          exact hO.2.2.1 _ _ _ _ _ hst
        | ok u =>
          rw [hst] at h
          exact ih (i + 1) s (chunkIdOf docId i :: acc) e s' h
      · simp only [Bool.not_eq_true] at hsup
        simp only [hsup, Bool.false_eq_true, if_false] at h
        exact ih (i + 1) _ (chunkIdOf docId i :: acc) e s' h

theorem answerQuestionBody_error_ne (env : Env) (oracle : Oracle)
    (store : Store) (q docId model : PyStr) (hist : List Msg) (e : PyStr)
    (hO : OracleMsgsNonempty oracle)
    (h : answerQuestionBody env oracle store q docId model hist = .error e) :
    e ≠ [] := by
  unfold answerQuestionBody at h
  cases hr : retrieveRelevantChunks env oracle store q docId 3 with
  | error e0 =>
    rw [hr] at h
    simp only [bind, Except.bind, Except.error.injEq] at h
    subst h
    exact generateEmbeddingOpenai_error_ne env oracle q e0 hO
      (retrieveRelevantChunks_error env oracle store q docId 3 e0 hr)
  | ok rc =>
    rw [hr] at h
    simp only [bind, Except.bind] at h
    by_cases hempty : rc.isEmpty = true
    · simp only [hempty, if_pos] at h
      cases hfl : fallbackLookup store docId with
      | error e1 =>
        rw [hfl] at h
        simp only [bind, Except.bind, Except.error.injEq] at h
        subst h
        unfold fallbackLookup at hfl
        cases hfind : store.document_chunks.find? (fun p => p.1 == docId) with
        | some p =>
          rw [hfind] at hfl
          simp only [Except.error.injEq] at hfl
          rw [← hfl]
          decide
        | none => rw [hfind] at hfl; simp at hfl
      | ok dt =>
        rw [hfl] at h
        simp only [bind, Except.bind] at h
        by_cases hdt : dt = [] <;> simp [hdt, pure, Except.pure] at h
    · simp only [hempty, Bool.false_eq_true, if_false] at h
      by_cases hms : (buildAvailableModels env model).isEmpty = true <;>
        simp [hms, pure, Except.pure] at h

theorem answerQuestionBody_ok_error_ne (env : Env) (oracle : Oracle)
    (store : Store) (q docId model : PyStr) (hist : List Msg)
    (m : PyStr) (hO : OracleMsgsNonempty oracle)
    (hbody : answerQuestionBody env oracle store q docId model hist
      = .ok (.error m)) :
    m ≠ [] := by
  unfold answerQuestionBody at hbody
  cases hret : retrieveRelevantChunks env oracle store q docId 3 with
  | error e0 => rw [hret] at hbody; simp [bind, Except.bind] at hbody
  | ok rc =>
    rw [hret] at hbody
    simp only [bind, Except.bind] at hbody
    by_cases hempty : rc.isEmpty = true
    · simp only [hempty, if_pos] at hbody
      cases hfl : fallbackLookup store docId with
      | error e1 =>
        rw [hfl] at hbody
        simp [bind, Except.bind] at hbody
      | ok dt =>
        rw [hfl] at hbody
        simp only [bind, Except.bind] at hbody
        by_cases hdt : dt = []
        · simp only [hdt, if_pos, pure, Except.pure, Except.ok.injEq,
            AQResult.error.injEq] at hbody
          rw [← hbody]
          decide
        · rw [if_neg hdt] at hbody
          simp only [pure, Except.pure, Except.ok.injEq] at hbody
          exact fallbackGenerate_error_ne env oracle q model hist dt m hbody
    · simp only [hempty, Bool.false_eq_true, if_false] at hbody
      by_cases hms : (buildAvailableModels env model).isEmpty = true
      · simp only [hms, if_pos, pure, Except.pure, Except.ok.injEq,
          AQResult.error.injEq] at hbody
        rw [← hbody]
        decide
      · simp only [hms, Bool.false_eq_true, if_false, pure, Except.pure,
          Except.ok.injEq] at hbody
        exact tryModels_error_ne _ rc _ none m hbody

/-- C10 amended: `process_document` and `answer_question` never propagate a
raised exception — every outcome is a returned result dict — and every
failure dict carries `status: "error"` with a description that is non-empty
provided every underlying exception message is non-empty (the top-level
handlers echo `str(e)` verbatim, so an empty exception message yields an
empty description). -/
theorem c10_amended_error_dicts (env : Env) (oracle : Oracle) (store : Store)
    (docId text : PyStr) (size overlap : Nat) (q aDocId model : PyStr)
    (hist : List Msg) (hO : OracleMsgsNonempty oracle) :
    (∀ r s', processDocument env oracle store docId text size overlap
        = some (r, s') → ∀ m, r = PDResult.error m → m ≠ []) ∧
    (∀ m, answerQuestion env oracle store q aDocId model hist
        = .error m → m ≠ []) := by
  constructor
  · intro r s' hrun m hr
    subst hr
    unfold processDocument at hrun
    cases hchunk : chunkDocument text size overlap with
    | none => rw [hchunk] at hrun; simp at hrun
    | some chunks =>
      rw [hchunk] at hrun
      by_cases hmode : (env.hasOpenai && env.openaiKey) = true
      · simp only [hmode, if_pos] at hrun
        cases hloop : ingestEmbedLoop env oracle docId chunks 0 store [] with
        | mk res s2 =>
          rw [hloop] at hrun
          cases res with
          | ok ids => simp at hrun
          | error e =>
            simp only [Option.some_inj, Prod.mk.injEq, PDResult.error.injEq] at hrun
            rw [← hrun.1]
            exact ingestEmbedLoop_error_ne env oracle docId hO chunks 0 store []
              e s2 hloop
      · simp only [hmode, Bool.false_eq_true, if_false] at hrun
        simp at hrun
  · intro m h
    unfold answerQuestion at h
    cases hbody : answerQuestionBody env oracle store q aDocId model hist with
    | error e =>
      rw [hbody] at h
      simp only [AQResult.error.injEq] at h
      rw [← h]
      exact answerQuestionBody_error_ne env oracle store q aDocId model hist e
        hO hbody
    | ok r =>
      rw [hbody] at h
      subst h
      exact answerQuestionBody_ok_error_ne env oracle store q aDocId model hist
        m hO hbody

/-- C10 counterexample: with OpenAI configured and the embedding call
raising an exception whose `str()` is empty, `process_document` returns the
error dict with an empty `"error"` description, refuting the unconditional
non-emptiness stated by the claim. -/
theorem c10_counterexample :
    oracleEmbedEmptyErr.embed "t".toList = .error [] ∧
    processDocument envVector oracleEmbedEmptyErr emptyStore
        "d".toList "t".toList 500 100
      = some (PDResult.error [], emptyStore) := by
  exact ⟨rfl, rfl⟩

/-- Witness for the amended C10 at concrete inputs whose oracle raises only
non-empty messages. -/
theorem c10_amended_error_dicts_witness :
    OracleMsgsNonempty oracleGenFail ∧
    ((∀ r s', processDocument envNone oracleGenFail emptyStore
        "d".toList "t".toList 500 100 = some (r, s') →
      ∀ m, r = PDResult.error m → m ≠ []) ∧
    (∀ m, answerQuestion envNone oracleGenFail emptyStore
        "q".toList "d".toList "gemini".toList [] = .error m → m ≠ [])) := by
  have hO : OracleMsgsNonempty oracleGenFail := by
    refine ⟨?_, ?_, ?_, ?_, ?_, ?_, ?_⟩
    · intro t e h; simp [oracleGenFail] at h
    · intro qe d k e h; simp [oracleGenFail] at h
    · intro a b c emb e h; simp [oracleGenFail] at h
    · intro q c h e hh; injection hh with h2; rw [← h2]; decide
    · intro q c h e hh; injection hh with h2; rw [← h2]; decide
    · intro q c h e hh; injection hh with h2; rw [← h2]; decide
    · intro q c h e hh; injection hh with h2; rw [← h2]; decide
  exact ⟨hO, c10_amended_error_dicts envNone oracleGenFail emptyStore
    "d".toList "t".toList 500 100 "q".toList "d".toList "gemini".toList [] hO⟩
